import Mathlib

/-!
Shallow embedding of the totp-cli core: the MAC engine (`src/mac.rs`), the OTP
generator (`src/otp.rs`), the authenticated codec (`src/chacha.rs`) and the
record store codec (`src/types.rs`).

Machine integers are modelled as `Nat` with explicit `% 2^w` where overflow can
occur (release-profile wrapping semantics); Rust operations that can panic
(indexing out of range, unsigned subtraction underflow feeding
`Vec::with_capacity`, division/remainder by zero, `.unwrap()` on `Err`) are
modelled by an `Option` layer where `none` is a panic. Byte strings are
`List Nat` of values `< 256`.
-/

namespace Totp

/-- Truncation to a 32-bit word, `x % 2^32`. -/
def u32 (x : Nat) : Nat := x % 4294967296

/-- Truncation to a 64-bit word, `x % 2^64`. -/
def u64 (x : Nat) : Nat := x % 18446744073709551616

/-- 32-bit left rotation (operand assumed `< 2^32`). -/
def rotl32 (n x : Nat) : Nat := ((x <<< n) ||| (x >>> (32 - n))) % 4294967296

/-- 64-bit left rotation (operand assumed `< 2^64`). -/
def rotl64 (n x : Nat) : Nat := ((x <<< n) ||| (x >>> (64 - n))) % 18446744073709551616

/-- Big-endian 32-bit word from four bytes. -/
def beWord (a b c d : Nat) : Nat := (a <<< 24) ||| (b <<< 16) ||| (c <<< 8) ||| d

/-- The four big-endian bytes of a 32-bit word. -/
def wordBytesBE (w : Nat) : List Nat :=
  [(w >>> 24) % 256, (w >>> 16) % 256, (w >>> 8) % 256, w % 256]

/-- The eight big-endian bytes of a 64-bit value (`u64::to_be_bytes`). -/
def u64_to_be_bytes (n : Nat) : List Nat :=
  [(n >>> 56) % 256, (n >>> 48) % 256, (n >>> 40) % 256, (n >>> 32) % 256,
   (n >>> 24) % 256, (n >>> 16) % 256, (n >>> 8) % 256, n % 256]

/-- Group a byte list into big-endian 32-bit words (length a multiple of 4). -/
def beWords : List Nat → List Nat
  | a :: b :: c :: d :: rest => beWord a b c d :: beWords rest
  | _ => []

/-! ### SHA-1 (the `sha1` crate primitive driven by `Hmac<sha1::Sha1>`) -/

/-- SHA-1 working state: the five 32-bit chaining words. -/
abbrev Sha1State := Nat × Nat × Nat × Nat × Nat

/-- SHA-1 initial chaining value. -/
def sha1Init : Sha1State :=
  (0x67452301, 0xEFCDAB89, 0x98BADCFE, 0x10325476, 0xC3D2E1F0)

/-- SHA-1 round function `f_t`. -/
def sha1F (t b c d : Nat) : Nat :=
  if t < 20 then (b &&& c) ||| ((b ^^^ 0xffffffff) &&& d)
  else if t < 40 then b ^^^ c ^^^ d
  else if t < 60 then (b &&& c) ||| (b &&& d) ||| (c &&& d)
  else b ^^^ c ^^^ d

/-- SHA-1 round constant `K_t`. -/
def sha1K (t : Nat) : Nat :=
  if t < 20 then 0x5A827999
  else if t < 40 then 0x6ED9EBA1
  else if t < 60 then 0x8F1BBCDC
  else 0xCA62C1D6

/-- Extend the 16-word message schedule by `n` further words. -/
def sha1Extend (w : List Nat) : Nat → List Nat
  | 0 => w
  | n + 1 =>
    let t := rotl32 1
      ((w.getD (w.length - 3) 0) ^^^ (w.getD (w.length - 8) 0) ^^^
       (w.getD (w.length - 14) 0) ^^^ (w.getD (w.length - 16) 0))
    sha1Extend (w ++ [t]) n

/-- One SHA-1 round. -/
def sha1Round (st : Sha1State) (t wt : Nat) : Sha1State :=
  match st with
  | (a, b, c, d, e) =>
    let tmp := (rotl32 5 a + sha1F t b c d + e + sha1K t + wt) % 4294967296
    (tmp, a, rotl32 30 b, c, d)

/-- Run the 80 SHA-1 rounds over a message schedule. -/
def sha1Rounds (st : Sha1State) (t : Nat) : List Nat → Sha1State
  | [] => st
  | wt :: rest => sha1Rounds (sha1Round st t wt) (t + 1) rest

/-- Compress one 64-byte block into the chaining state. -/
def sha1Compress (h : Sha1State) (block : List Nat) : Sha1State :=
  let ws := sha1Extend (beWords block) 64
  match h, sha1Rounds h 0 ws with
  | (h0, h1, h2, h3, h4), (a, b, c, d, e) =>
    ((h0 + a) % 4294967296, (h1 + b) % 4294967296, (h2 + c) % 4294967296,
     (h3 + d) % 4294967296, (h4 + e) % 4294967296)

/-- Process a padded message, 64 bytes at a time. The fuel argument only
drives structural recursion; it is at least the number of blocks at every
call site, so it never runs out. -/
def sha1BlocksF (fuel : Nat) (h : Sha1State) (msg : List Nat) : Sha1State :=
  match fuel, msg with
  | _, [] => h
  | 0, _ => h
  | fuel + 1, b :: rest =>
    sha1BlocksF fuel (sha1Compress h ((b :: rest).take 64)) (rest.drop 63)

/-- Process a padded message, 64 bytes at a time. -/
def sha1Blocks (h : Sha1State) (msg : List Nat) : Sha1State :=
  sha1BlocksF msg.length h msg

/-- Merkle-Damgård padding: `0x80`, zeros, then the bit length as 64-bit BE. -/
def sha1Pad (msg : List Nat) : List Nat :=
  msg ++ [0x80] ++ List.replicate ((119 - msg.length % 64) % 64) 0 ++
    u64_to_be_bytes (8 * msg.length)

/-- Serialize the five chaining words as the 20 digest bytes. -/
def sha1Out : Sha1State → List Nat
  | (a, b, c, d, e) =>
    wordBytesBE a ++ wordBytesBE b ++ wordBytesBE c ++ wordBytesBE d ++ wordBytesBE e

/-- SHA-1 of a byte string. -/
def sha1 (msg : List Nat) : List Nat :=
  sha1Out (sha1Blocks sha1Init (sha1Pad msg))

/-! ### Keccak / SHA3-256 and SHA3-512 (the `sha3` crate primitives driven by
`Hmac<sha3::Sha3_256>` / `Hmac<sha3::Sha3_512>`). Modelled from the spec: the
spec fixes the `SHA256`/`SHA512` variants to the SHA3 (Keccak, FIPS 202)
family; the primitive itself lives in the external `sha3` crate, not under
`src/`. -/

/-- Rho-step rotation offsets, indexed by lane index `x + 5*y`. -/
def rhoOffsets : List Nat :=
  [0, 1, 62, 28, 27] ++ [36, 44, 6, 55, 20] ++ [3, 10, 43, 25, 39] ++
    [41, 45, 15, 21, 8] ++ [18, 2, 61, 56, 14]

/-- Keccak round constants for the 24 rounds of Keccak-f[1600]. -/
def keccakRC : List Nat :=
  [1, 32898, 9223372036854808714] ++
    [9223372039002292224, 32907, 2147483649] ++
    [9223372039002292353, 9223372036854808585, 138] ++
    [136, 2147516425, 2147483658] ++
    [2147516555, 9223372036854775947, 9223372036854808713] ++
    [9223372036854808579, 9223372036854808578, 9223372036854775936] ++
    [32778, 9223372039002259466, 9223372039002292353] ++
    [9223372036854808704, 2147483649, 9223372039002292232]

/-- Keccak theta step on a 25-lane state. -/
def keccakTheta (A : List Nat) : List Nat :=
  let C := fun x => A.getD x 0 ^^^ A.getD (x + 5) 0 ^^^ A.getD (x + 10) 0 ^^^
    A.getD (x + 15) 0 ^^^ A.getD (x + 20) 0
  let D := fun x => C ((x + 4) % 5) ^^^ rotl64 1 (C ((x + 1) % 5))
  List.ofFn (n := 25) fun i => A.getD i.1 0 ^^^ D (i.1 % 5)

/-- Keccak rho and pi steps combined: `B[x,y] = rotl(A[x',x], r[x',x])` with
`x' = (x + 3*y) % 5`. -/
def keccakRhoPi (A : List Nat) : List Nat :=
  List.ofFn (n := 25) fun i =>
    let x := i.1 % 5
    let y := i.1 / 5
    let src := (x + 3 * y) % 5 + 5 * x
    rotl64 (rhoOffsets.getD src 0) (A.getD src 0)

/-- Keccak chi step. -/
def keccakChi (A : List Nat) : List Nat :=
  List.ofFn (n := 25) fun i =>
    let x := i.1 % 5
    let y := i.1 / 5
    A.getD i.1 0 ^^^
      ((A.getD ((x + 1) % 5 + 5 * y) 0 ^^^ 0xFFFFFFFFFFFFFFFF) &&&
        A.getD ((x + 2) % 5 + 5 * y) 0)

/-- Keccak iota step: mix the round constant into lane 0. -/
def keccakIota (rc : Nat) (A : List Nat) : List Nat :=
  List.ofFn (n := 25) fun i => if i.1 = 0 then A.getD 0 0 ^^^ rc else A.getD i.1 0

/-- One round of Keccak-f[1600]. -/
def keccakRound (A : List Nat) (rc : Nat) : List Nat :=
  keccakIota rc (keccakChi (keccakRhoPi (keccakTheta A)))

/-- The Keccak-f[1600] permutation: 24 rounds. -/
def keccakF (A : List Nat) : List Nat := keccakRC.foldl keccakRound A

/-- A 64-bit lane from up to eight little-endian bytes. -/
def leLane (bytes : List Nat) : Nat :=
  bytes.foldr (fun b acc => b ||| (acc <<< 8)) 0

/-- The eight little-endian bytes of a 64-bit lane. -/
def laneBytesLE (w : Nat) : List Nat :=
  [w % 256, (w >>> 8) % 256, (w >>> 16) % 256, (w >>> 24) % 256,
   (w >>> 32) % 256, (w >>> 40) % 256, (w >>> 48) % 256, (w >>> 56) % 256]

/-- XOR one rate-sized block (as little-endian lanes) into the state. -/
def keccakAbsorbBlock (A : List Nat) (block : List Nat) : List Nat :=
  List.ofFn (n := 25) fun i =>
    A.getD i.1 0 ^^^ leLane ((block.drop (8 * i.1)).take 8)

/-- Absorb a padded message, `rate` bytes at a time (fuel-driven recursion;
the fuel is at least the number of blocks at every call site). -/
def keccakAbsorbF (fuel rate : Nat) (A : List Nat) (msg : List Nat) : List Nat :=
  match fuel, msg with
  | _, [] => A
  | 0, _ => A
  | fuel + 1, b :: rest =>
    keccakAbsorbF fuel rate (keccakF (keccakAbsorbBlock A ((b :: rest).take rate)))
      (rest.drop (rate - 1))

/-- Absorb a padded message, `rate` bytes at a time. -/
def keccakAbsorb (rate : Nat) (A : List Nat) (msg : List Nat) : List Nat :=
  keccakAbsorbF msg.length rate A msg

/-- SHA3 `pad10*1` padding with the `0x06` domain suffix. -/
def sha3Pad (rate : Nat) (msg : List Nat) : List Nat :=
  let q := rate - msg.length % rate
  if q = 1 then msg ++ [0x86]
  else msg ++ [0x06] ++ List.replicate (q - 2) 0 ++ [0x80]

/-- Squeeze the first `d` output bytes from the final state. -/
def keccakSqueeze (A : List Nat) (d : Nat) : List Nat :=
  ((A.map laneBytesLE).flatten).take d

/-- SHA3 with byte rate `rate` and digest length `d` bytes. -/
def sha3 (rate d : Nat) (msg : List Nat) : List Nat :=
  keccakSqueeze (keccakAbsorb rate (List.replicate 25 0) (sha3Pad rate msg)) d

/-- SHA3-256: rate 136 bytes, 32-byte digest. -/
def sha3_256 (msg : List Nat) : List Nat := sha3 136 32 msg

/-- SHA3-512: rate 72 bytes, 64-byte digest. -/
def sha3_512 (msg : List Nat) : List Nat := sha3 72 64 msg

/-! ### HMAC (the `hmac` crate construction `Hmac<D>`) -/

/-- A hash primitive as the HMAC construction consumes it: the compression
function together with its block size in bytes. -/
structure HashFn where
  hash : List Nat → List Nat
  blockSize : Nat

/-- SHA-1 as an HMAC primitive (64-byte blocks). -/
def sha1Fn : HashFn := ⟨sha1, 64⟩

/-- SHA3-256 as an HMAC primitive (block size = rate = 136 bytes). -/
def sha3_256Fn : HashFn := ⟨sha3_256, 136⟩

/-- SHA3-512 as an HMAC primitive (block size = rate = 72 bytes). -/
def sha3_512Fn : HashFn := ⟨sha3_512, 72⟩

/-- HMAC: hash over-long keys, zero-pad to the block size, XOR with the inner
and outer pads, and compose the two hash calls. -/
def hmac (H : HashFn) (key msg : List Nat) : List Nat :=
  let k0 := if H.blockSize < key.length then H.hash key else key
  let k1 := k0 ++ List.replicate (H.blockSize - k0.length) 0
  H.hash ((k1.map (fun b => b ^^^ 0x5c)) ++ H.hash ((k1.map (fun b => b ^^^ 0x36)) ++ msg))

namespace mac

/-- Embedding of `mac::Error` from `src/mac.rs`. -/
inductive Error
  | InvalidKeyLength
deriving Repr, DecidableEq

/-- Embedding of `mac::one_off_sha1`. `Hmac::new_from_slice` accepts every key
length for these digests (long keys are hashed inside the construction), so
the `?` on it never takes the error path and the result is always `Ok`. -/
def one_off_sha1 (secret data : List Nat) : Except Error (List Nat) :=
  .ok (hmac sha1Fn secret data)

/-- Embedding of `mac::one_off_sha256` (which drives `Hmac<sha3::Sha3_256>`). -/
def one_off_sha256 (secret data : List Nat) : Except Error (List Nat) :=
  .ok (hmac sha3_256Fn secret data)

/-- Embedding of `mac::one_off_sha512` (which drives `Hmac<sha3::Sha3_512>`). -/
def one_off_sha512 (secret data : List Nat) : Except Error (List Nat) :=
  .ok (hmac sha3_512Fn secret data)

end mac

/-! ### The OTP generator, `src/otp.rs` -/

namespace otp

/-- Embedding of `otp::Algo`. -/
inductive Algo
  | SHA1
  | SHA256
  | SHA512
deriving Repr, DecidableEq

/-- Embedding of `Algo::try_from_str`. -/
def Algo.try_from_str (v : String) : Except Unit Algo :=
  if v = "SHA1" then .ok .SHA1
  else if v = "SHA256" then .ok .SHA256
  else if v = "SHA512" then .ok .SHA512
  else .error ()

/-- Embedding of `Algo::as_str`. -/
def Algo.as_str : Algo → String
  | .SHA1 => "SHA1"
  | .SHA256 => "SHA256"
  | .SHA512 => "SHA512"

/-- Embedding of `otp::one_off`: dispatch on the algorithm. -/
def one_off (algo : Algo) (secret data : List Nat) : Except mac.Error (List Nat) :=
  match algo with
  | .SHA1 => mac.one_off_sha1 secret data
  | .SHA256 => mac.one_off_sha256 secret data
  | .SHA512 => mac.one_off_sha512 secret data

/-- The digest `one_off` produces (it is always `Ok`). -/
def hmacOf (algo : Algo) (secret data : List Nat) : List Nat :=
  match algo with
  | .SHA1 => hmac sha1Fn secret data
  | .SHA256 => hmac sha3_256Fn secret data
  | .SHA512 => hmac sha3_512Fn secret data

/-- Embedding of `otp::pad_string`: left-pad with `'0'` up to `digits`
characters, never truncating. -/
def pad_string (uint_string : String) (digits : Nat) : String :=
  if uint_string.length < digits then
    String.mk (List.replicate (digits - uint_string.length) '0') ++ uint_string
  else
    uint_string

/-- Embedding of `otp::generate_integer_string`. Panics are modelled as
`none`: the `.unwrap()` on the mac result, the `hash[hash.len() - 1]` and
`hash[offset + k]` indexing, and the `% 10u64.pow(digits)` remainder, whose
divisor wraps to `0` modulo `2^64` once `digits ≥ 64` (release-profile
wrapping of `u64::pow`) and then panics with a division by zero. -/
def generate_integer_string (algorithm : Algo) (secret : List Nat) (digits : Nat)
    (data : List Nat) : Option String :=
  match one_off algorithm secret data with
  | .error _ => none
  | .ok hash =>
    if hash.length = 0 then none
    else
      match hash.get? (hash.length - 1) with
      | none => none
      | some lastByte =>
        let offset := lastByte &&& 0xf
        match hash.get? offset, hash.get? (offset + 1), hash.get? (offset + 2),
            hash.get? (offset + 3) with
        | some h0, some h1, some h2, some h3 =>
          let binary := u64 (((h0 &&& 0x7f) <<< 24) ||| (h1 <<< 16) ||| (h2 <<< 8) ||| h3)
          let m := u64 (10 ^ digits)
          if m = 0 then none
          else some (pad_string (Nat.repr (binary % m)) digits)
        | _, _, _, _ => none

/-- Rust unsigned division: panics (`none`) on a zero divisor. -/
def rust_div (a b : Nat) : Option Nat := if b = 0 then none else some (a / b)

/-- Embedding of `otp::_hotp`. -/
def _hotp (secret : List Nat) (digits counter : Nat) : Option String :=
  generate_integer_string .SHA1 secret digits (u64_to_be_bytes counter)

/-- Embedding of `otp::_totp`: the counter is `time / step`, big-endian. -/
def _totp (algorithm : Algo) (secret : List Nat) (digits step time : Nat) :
    Option String :=
  match rust_div time step with
  | none => none
  | some window => generate_integer_string algorithm secret digits (u64_to_be_bytes window)

end otp

/-! ### XChaCha20-Poly1305 (the `chacha20poly1305` crate AEAD behind
`src/chacha.rs`). Modelled from the spec: the cipher itself lives in the
external crate; the spec fixes it to XChaCha20-Poly1305 with a 256-bit key, a
192-bit nonce and a 128-bit tag, applied with no additional authenticated
data. -/

/-- A 32-bit word from four little-endian bytes. -/
def leWord (a b c d : Nat) : Nat := a ||| (b <<< 8) ||| (c <<< 16) ||| (d <<< 24)

/-- Group a byte list into little-endian 32-bit words. -/
def leWords : List Nat → List Nat
  | a :: b :: c :: d :: rest => leWord a b c d :: leWords rest
  | _ => []

/-- The four little-endian bytes of a 32-bit word. -/
def wordBytesLE (w : Nat) : List Nat :=
  [w % 256, (w >>> 8) % 256, (w >>> 16) % 256, (w >>> 24) % 256]

/-- The ChaCha20 quarter round. -/
def chachaQR (x : Nat × Nat × Nat × Nat) : Nat × Nat × Nat × Nat :=
  match x with
  | (a, b, c, d) =>
    let a := (a + b) % 4294967296
    let d := rotl32 16 (d ^^^ a)
    let c := (c + d) % 4294967296
    let b := rotl32 12 (b ^^^ c)
    let a := (a + b) % 4294967296
    let d := rotl32 8 (d ^^^ a)
    let c := (c + d) % 4294967296
    let b := rotl32 7 (b ^^^ c)
    (a, b, c, d)

/-- Apply the quarter round to four positions of a 16-word state. -/
def applyQR (s : List Nat) (ia ib ic id : Nat) : List Nat :=
  match chachaQR (s.getD ia 0, s.getD ib 0, s.getD ic 0, s.getD id 0) with
  | (a, b, c, d) =>
    List.ofFn (n := 16) fun i =>
      if i.1 = ia then a
      else if i.1 = ib then b
      else if i.1 = ic then c
      else if i.1 = id then d
      else s.getD i.1 0

/-- One ChaCha20 double round: four column rounds then four diagonal rounds. -/
def chachaDoubleRound (s : List Nat) : List Nat :=
  let s := applyQR s 0 4 8 12
  let s := applyQR s 1 5 9 13
  let s := applyQR s 2 6 10 14
  let s := applyQR s 3 7 11 15
  let s := applyQR s 0 5 10 15
  let s := applyQR s 1 6 11 12
  let s := applyQR s 2 7 8 13
  applyQR s 3 4 9 14

/-- Ten double rounds: the 20 rounds of ChaCha20. -/
def chachaRounds (s : List Nat) : List Nat :=
  chachaDoubleRound (chachaDoubleRound (chachaDoubleRound (chachaDoubleRound
    (chachaDoubleRound (chachaDoubleRound (chachaDoubleRound (chachaDoubleRound
      (chachaDoubleRound (chachaDoubleRound s)))))))))

/-- The ChaCha20 state constants, `"expand 32-byte k"`. -/
def chachaConsts : List Nat := [0x61707865, 0x3320646e, 0x79622d32, 0x6b206574]

/-- The 64-byte ChaCha20 keystream block for a key, 32-bit counter and 12-byte
IETF nonce. -/
def chachaBlock (key : List Nat) (counter : Nat) (nonce : List Nat) : List Nat :=
  let init := chachaConsts ++ leWords key ++ [u32 counter] ++ leWords nonce
  let working := chachaRounds init
  (List.ofFn (n := 16) fun i =>
    wordBytesLE ((working.getD i.1 0 + init.getD i.1 0) % 4294967296)).flatten

/-- HChaCha20: derive a 32-byte subkey from a key and the first 16 nonce
bytes; the rounds output words 0-3 and 12-15 are taken without the final
feed-forward addition. -/
def hchacha20 (key : List Nat) (nonce16 : List Nat) : List Nat :=
  let init := chachaConsts ++ leWords key ++ leWords nonce16
  let working := chachaRounds init
  ((working.take 4) ++ (working.drop 12).take 4).map wordBytesLE |>.flatten

/-- The XChaCha20 keystream byte at index `i`: block counter starts at 1
(counter 0 makes the Poly1305 key), wrapping as a `u32`. -/
def xchachaKs (subkey : List Nat) (iv : List Nat) (i : Nat) : Nat :=
  (chachaBlock subkey (1 + i / 64) iv).getD (i % 64) 0

/-- XOR a byte list against a keystream, starting at keystream index `i`. -/
def xorKs (ks : Nat → Nat) (i : Nat) : List Nat → List Nat
  | [] => []
  | b :: rest => (b ^^^ ks i) :: xorKs ks (i + 1) rest

/-- Poly1305 clamp mask for `r`. -/
def polyClamp : Nat := 0x0ffffffc0ffffffc0ffffffc0fffffff

/-- The Poly1305 prime `2^130 - 5`. -/
def polyP : Nat := 1361129467683753853853498429727072845819

/-- A little-endian number from a byte list. -/
def leNum : List Nat → Nat
  | [] => 0
  | b :: rest => b ||| (leNum rest <<< 8)

/-- Poly1305 accumulation over 16-byte chunks, each chunk extended with a
high `0x01` byte (fuel-driven recursion; the fuel is at least the number of
chunks at every call site). -/
def polyBlocksF (fuel : Nat) (r acc : Nat) (msg : List Nat) : Nat :=
  match fuel, msg with
  | _, [] => acc
  | 0, _ => acc
  | fuel + 1, b :: rest =>
    let chunk := (b :: rest).take 16
    let n := leNum (chunk ++ [1])
    polyBlocksF fuel r (((acc + n) * r) % polyP) (rest.drop 15)

/-- The 16 little-endian bytes of a 128-bit value. -/
def tagBytes (n : Nat) : List Nat :=
  [n % 256, (n >>> 8) % 256, (n >>> 16) % 256, (n >>> 24) % 256,
   (n >>> 32) % 256, (n >>> 40) % 256, (n >>> 48) % 256, (n >>> 56) % 256,
   (n >>> 64) % 256, (n >>> 72) % 256, (n >>> 80) % 256, (n >>> 88) % 256,
   (n >>> 96) % 256, (n >>> 104) % 256, (n >>> 112) % 256, (n >>> 120) % 256]

/-- Poly1305: clamp `r`, accumulate the message, add `s` modulo `2^128`. -/
def poly1305 (keyBytes : List Nat) (msg : List Nat) : List Nat :=
  let r := leNum (keyBytes.take 16) &&& polyClamp
  let s := leNum ((keyBytes.drop 16).take 16)
  tagBytes ((polyBlocksF msg.length r 0 msg + s) % 340282366920938463463374607431768211456)

/-- Zero padding up to the next 16-byte boundary. -/
def pad16 (len : Nat) : List Nat :=
  List.replicate ((16 - len % 16) % 16) 0

/-- The eight little-endian bytes of a 64-bit length. -/
def u64_to_le_bytes (n : Nat) : List Nat :=
  [n % 256, (n >>> 8) % 256, (n >>> 16) % 256, (n >>> 24) % 256,
   (n >>> 32) % 256, (n >>> 40) % 256, (n >>> 48) % 256, (n >>> 56) % 256]

/-- The Poly1305 input for an AEAD message with empty additional data: the
ciphertext, zero padding, then the two encoded lengths. -/
def aeadMacData (ct : List Nat) : List Nat :=
  ct ++ pad16 ct.length ++ u64_to_le_bytes 0 ++ u64_to_le_bytes ct.length

/-- XChaCha20-Poly1305 sealing: derive the subkey and IETF IV, take the
Poly1305 key from block 0, encrypt from block 1, append the tag. -/
def aeadSeal (key nonce pt : List Nat) : List Nat :=
  let subkey := hchacha20 key (nonce.take 16)
  let iv := [0, 0, 0, 0] ++ (nonce.drop 16).take 8
  let polyKey := (chachaBlock subkey 0 iv).take 32
  let ct := xorKs (xchachaKs subkey iv) 0 pt
  ct ++ poly1305 polyKey (aeadMacData ct)

/-- XChaCha20-Poly1305 opening: split off the 16-byte tag, recompute it over
the ciphertext, and decrypt only on an exact tag match. -/
def aeadOpen (key nonce data : List Nat) : Option (List Nat) :=
  if data.length < 16 then none
  else
    let subkey := hchacha20 key (nonce.take 16)
    let iv := [0, 0, 0, 0] ++ (nonce.drop 16).take 8
    let polyKey := (chachaBlock subkey 0 iv).take 32
    let ct := data.take (data.length - 16)
    let tag := data.drop (data.length - 16)
    if poly1305 polyKey (aeadMacData ct) = tag then
      some (xorKs (xchachaKs subkey iv) 0 ct)
    else none

/-! ### The authenticated codec wrappers, `src/chacha.rs` -/

/-- Embedding of `error::ErrorKind` from `src/error.rs`. -/
inductive ErrorKind
  | InvalidOp
  | InvalidExtension
  | MissingArgument
  | InvalidArgument
  | IoError
  | JsonError
  | YamlError
  | MacError
  | UrlError
  | ChaChaError
  | RandError
deriving Repr, DecidableEq

/-- Embedding of `error::Error` (the boxed `source` cause is dropped: it is
only carried for display). -/
structure Error where
  kind : ErrorKind
  message : Option String
deriving Repr, DecidableEq

namespace chacha

/-- `chacha::KEY_LEN`. -/
def KEY_LEN : Nat := 32

/-- `chacha::NONCE_LEN`. -/
def NONCE_LEN : Nat := 24

/-- Embedding of `chacha::decrypt_data`: build the cipher (the key-length
check of `new_from_slice`), then AEAD-open; a failed tag check is reported as
a `ChaChaError`. -/
def decrypt_data (key nonce data : List Nat) : Except Error (List Nat) :=
  if key.length ≠ KEY_LEN then
    .error ⟨.ChaChaError, some "length of provided key is invalid"⟩
  else
    match aeadOpen key nonce data with
    | some pt => .ok pt
    | none => .error ⟨.ChaChaError, some "failed to decrypt requested data"⟩

/-- Embedding of `chacha::encrypt_data`. -/
def encrypt_data (key nonce data : List Nat) : Except Error (List Nat) :=
  if key.length ≠ KEY_LEN then
    .error ⟨.ChaChaError, some "length of provided key is invalid"⟩
  else
    .ok (aeadSeal key nonce data)

end chacha

/-! ### JSON (the `serde_json` value model behind `src/types.rs`). Modelled
from the spec: the decrypted plaintext is UTF-8 JSON, a mapping from record
name to an object with fields `secret`, `algo`, `digits`, `step`, `issuer`,
`username`; the serializer itself lives in the external `serde_json` crate.
Rust strings appear as their UTF-8 byte sequences (`List Nat`). -/

/-- A JSON value. Numbers are integers: every number this program writes or
reads is an integer (`u8`, `u32`, `u64`), and out-of-range or fractional
inputs are rejected by the typed field parsers. -/
inductive Json
  | null
  | bool (b : Bool)
  | num (n : Int)
  | str (s : List Nat)
  | arr (xs : List Json)
  | obj (fields : List (List Nat × Json))
deriving Repr

/-- The ASCII bytes of a Lean string literal (used for field names and enum
tags, all ASCII). -/
def asciiBytes (s : String) : List Nat := s.data.map Char.toNat

/-- A lowercase hexadecimal digit. -/
def hexDigit (n : Nat) : Nat := if n < 10 then 48 + n else 87 + n

/-- JSON string escaping of one byte, as `serde_json` writes it: `\"`, `\\`,
the short control escapes, `\u00XX` for other control bytes, else the byte
itself. -/
def escapeByte (b : Nat) : List Nat :=
  if b = 34 then [92, 34]
  else if b = 92 then [92, 92]
  else if b = 8 then [92, 98]
  else if b = 9 then [92, 116]
  else if b = 10 then [92, 110]
  else if b = 12 then [92, 102]
  else if b = 13 then [92, 114]
  else if b < 32 then [92, 117, 48, 48, hexDigit (b / 16), hexDigit (b % 16)]
  else [b]

/-- Decimal ASCII digits of a natural number (fuel-driven; `fuel > n` always
suffices since the argument shrinks by a factor of ten each step). -/
def natDecF (fuel n : Nat) : List Nat :=
  match fuel with
  | 0 => []
  | fuel + 1 => if n < 10 then [48 + n] else natDecF fuel (n / 10) ++ [48 + n % 10]

/-- Decimal ASCII digits of a natural number. -/
def natDecBytes (n : Nat) : List Nat := natDecF (n + 1) n

/-- Decimal ASCII rendering of an integer. -/
def intDecBytes (i : Int) : List Nat :=
  if i < 0 then 45 :: natDecBytes (-i).toNat else natDecBytes i.toNat

/-- Join rendered items with commas. -/
def commaSep : List (List Nat) → List Nat
  | [] => []
  | [x] => x
  | x :: y :: rest => x ++ [44] ++ commaSep (y :: rest)

/-- Render a JSON value to bytes, compact form with no whitespace (as
`serde_json::to_vec` does). The fuel argument only drives recursion into
nested values, so any fuel at least the nesting depth produces the full
rendering. -/
def renderJsonF : Nat → Json → List Nat
  | 0, _ => []
  | fuel + 1, j =>
    match j with
    | .null => [110, 117, 108, 108]
    | .bool true => [116, 114, 117, 101]
    | .bool false => [102, 97, 108, 115, 101]
    | .num n => intDecBytes n
    | .str s => [34] ++ (s.map escapeByte).flatten ++ [34]
    | .arr xs => [91] ++ commaSep (xs.map (renderJsonF fuel)) ++ [93]
    | .obj fs =>
      [123] ++
        commaSep (fs.map fun kv =>
          [34] ++ (kv.1.map escapeByte).flatten ++ [34, 58] ++ renderJsonF fuel kv.2) ++
        [125]

/-- Value of a hexadecimal digit byte. -/
def hexVal (b : Nat) : Option Nat :=
  if 48 ≤ b ∧ b ≤ 57 then some (b - 48)
  else if 97 ≤ b ∧ b ≤ 102 then some (b - 87)
  else if 65 ≤ b ∧ b ≤ 70 then some (b - 55)
  else none

/-- Parse a JSON string body up to the closing quote, undoing escapes.
Returns the content bytes and the input remainder. -/
def parseStrBodyF : Nat → List Nat → Option (List Nat × List Nat)
  | 0, _ => none
  | _ + 1, [] => none
  | fuel + 1, b :: rest =>
    if b = 34 then some ([], rest)
    else if b = 92 then
      match rest with
      | 34 :: r => (fun p => (34 :: p.1, p.2)) <$> parseStrBodyF fuel r
      | 92 :: r => (fun p => (92 :: p.1, p.2)) <$> parseStrBodyF fuel r
      | 47 :: r => (fun p => (47 :: p.1, p.2)) <$> parseStrBodyF fuel r
      | 98 :: r => (fun p => (8 :: p.1, p.2)) <$> parseStrBodyF fuel r
      | 116 :: r => (fun p => (9 :: p.1, p.2)) <$> parseStrBodyF fuel r
      | 110 :: r => (fun p => (10 :: p.1, p.2)) <$> parseStrBodyF fuel r
      | 102 :: r => (fun p => (12 :: p.1, p.2)) <$> parseStrBodyF fuel r
      | 114 :: r => (fun p => (13 :: p.1, p.2)) <$> parseStrBodyF fuel r
      | 117 :: h1 :: h2 :: h3 :: h4 :: r =>
        match hexVal h1, hexVal h2, hexVal h3, hexVal h4 with
        | some a, some b2, some c, some d =>
          let code := ((a * 16 + b2) * 16 + c) * 16 + d
          if code < 256 then (fun p => (code :: p.1, p.2)) <$> parseStrBodyF fuel r
          else none
        | _, _, _, _ => none
      | _ => none
    else (fun p => (b :: p.1, p.2)) <$> parseStrBodyF fuel rest

/-- Split leading decimal digit bytes from the rest of the input. -/
def digitsSpan : List Nat → List Nat × List Nat
  | [] => ([], [])
  | b :: rest =>
    if 48 ≤ b ∧ b ≤ 57 then
      let p := digitsSpan rest
      (b :: p.1, p.2)
    else ([], b :: rest)

/-- Numeric value of a list of decimal digit bytes. -/
def digitsVal (ds : List Nat) : Nat := ds.foldl (fun acc d => acc * 10 + (d - 48)) 0

mutual

/-- Parse one JSON value from the front of the input (compact form, as the
renderer produces). Fuel-driven mutual recursion. -/
def parseJsonF : Nat → List Nat → Option (Json × List Nat)
  | 0, _ => none
  | _ + 1, [] => none
  | fuel + 1, b :: rest =>
    if b = 110 then
      match rest with
      | 117 :: 108 :: 108 :: r => some (.null, r)
      | _ => none
    else if b = 116 then
      match rest with
      | 114 :: 117 :: 101 :: r => some (.bool true, r)
      | _ => none
    else if b = 102 then
      match rest with
      | 97 :: 108 :: 115 :: 101 :: r => some (.bool false, r)
      | _ => none
    else if b = 34 then (fun p => (.str p.1, p.2)) <$> parseStrBodyF (fuel + 1) rest
    else if b = 91 then
      match rest with
      | [] => none
      | c :: r2 =>
        if c = 93 then some (.arr [], r2)
        else
          match parseJsonF fuel (c :: r2) with
          | none => none
          | some (v, r) => parseArrRestF fuel [v] r
    else if b = 123 then
      match rest with
      | [] => none
      | c :: r2 =>
        if c = 125 then some (.obj [], r2)
        else if c = 34 then
          match parseStrBodyF (fuel + 1) r2 with
          | none => none
          | some (k, 58 :: r3) =>
            match parseJsonF fuel r3 with
            | none => none
            | some (v, r4) => parseObjRestF fuel [(k, v)] r4
          | some _ => none
        else none
    else if b = 45 then
      match digitsSpan rest with
      | ([], _) => none
      | (ds, r) => some (.num (-(Int.ofNat (digitsVal ds))), r)
    else if 48 ≤ b ∧ b ≤ 57 then
      match digitsSpan (b :: rest) with
      | (ds, r) => some (.num (Int.ofNat (digitsVal ds)), r)
    else none

/-- After an array item: a comma and another item, or the closing bracket. -/
def parseArrRestF : Nat → List Json → List Nat → Option (Json × List Nat)
  | 0, _, _ => none
  | _ + 1, _, [] => none
  | fuel + 1, acc, b :: rest =>
    if b = 93 then some (.arr acc.reverse, rest)
    else if b = 44 then
      match parseJsonF fuel rest with
      | none => none
      | some (v, r) => parseArrRestF fuel (v :: acc) r
    else none

/-- After an object member: a comma and another member, or the closing
brace. -/
def parseObjRestF : Nat → List (List Nat × Json) → List Nat →
    Option (Json × List Nat)
  | 0, _, _ => none
  | _ + 1, _, [] => none
  | fuel + 1, acc, b :: rest =>
    if b = 125 then some (.obj acc.reverse, rest)
    else if b = 44 then
      match rest with
      | 34 :: r2 =>
        match parseStrBodyF (fuel + 1) r2 with
        | none => none
        | some (k, 58 :: r3) =>
          match parseJsonF fuel r3 with
          | none => none
          | some (v, r4) => parseObjRestF fuel ((k, v) :: acc) r4
        | some _ => none
      | _ => none
    else none

end

/-- Parse a complete JSON document. -/
def parseJson (bs : List Nat) : Option (Json × List Nat) :=
  parseJsonF (2 * bs.length + 2) bs

/-! ### The record store, `src/types.rs` -/

namespace types

open otp

/-- Embedding of `types::default_algo`. -/
def default_algo : Algo := Algo.SHA1

/-- Embedding of `types::default_digits`. -/
def default_digits : Nat := 6

/-- Embedding of `types::default_step`. -/
def default_step : Nat := 30

/-- Embedding of `types::TotpRecord`. Strings are their UTF-8 bytes. -/
structure TotpRecord where
  secret : List Nat
  algo : Algo
  digits : Nat
  step : Nat
  issuer : Option (List Nat)
  username : Option (List Nat)
deriving Repr, DecidableEq

/-- Embedding of `types::TotpRecordDict` as an association list from record
name (UTF-8 bytes) to record. -/
abbrev TotpRecordDict := List (List Nat × TotpRecord)

/-- The machine-range invariants the Rust field types impose on a record:
`secret : Vec<u8>`, `digits : u32`, `step : u64`. -/
def TotpRecord.wf (r : TotpRecord) : Prop :=
  (∀ b ∈ r.secret, b < 256) ∧ r.digits < 4294967296 ∧ r.step < 18446744073709551616

/-- Every record of the mapping is within the machine ranges its Rust types
impose. -/
def dictWf (d : TotpRecordDict) : Prop := ∀ kv ∈ d, kv.2.wf

/-- Serde deserialization of a `Vec<u8>` element: an integer in `0..=255`. -/
def parseByteVal : Json → Except Error Nat
  | .num n => if 0 ≤ n ∧ n ≤ 255 then .ok n.toNat else .error ⟨.JsonError, none⟩
  | _ => .error ⟨.JsonError, none⟩

/-- Serde deserialization of `Vec<u8>`: a JSON array of bytes. -/
def parseSecretVal : Json → Except Error (List Nat)
  | .arr xs => go xs
  | _ => .error ⟨.JsonError, none⟩
where
  go : List Json → Except Error (List Nat)
    | [] => .ok []
    | x :: rest =>
      match parseByteVal x, go rest with
      | .ok b, .ok bs => .ok (b :: bs)
      | .error e, _ => .error e
      | _, .error e => .error e

/-- Serde deserialization of the `Algo` unit enum: one of the literal variant
names. -/
def parseAlgoVal : Json → Except Error Algo
  | .str s =>
    if s = asciiBytes "SHA1" then .ok .SHA1
    else if s = asciiBytes "SHA256" then .ok .SHA256
    else if s = asciiBytes "SHA512" then .ok .SHA512
    else .error ⟨.JsonError, none⟩
  | _ => .error ⟨.JsonError, none⟩

/-- Serde deserialization of a `u32`: an integer in `0..2^32`. -/
def parseU32Val : Json → Except Error Nat
  | .num n => if 0 ≤ n ∧ n < 4294967296 then .ok n.toNat else .error ⟨.JsonError, none⟩
  | _ => .error ⟨.JsonError, none⟩

/-- Serde deserialization of a `u64`: an integer in `0..2^64`. -/
def parseU64Val : Json → Except Error Nat
  | .num n =>
    if 0 ≤ n ∧ n < 18446744073709551616 then .ok n.toNat else .error ⟨.JsonError, none⟩
  | _ => .error ⟨.JsonError, none⟩

/-- Serde deserialization of an `Option<String>`: `null` or a string. -/
def parseOptStrVal : Json → Except Error (Option (List Nat))
  | .null => .ok none
  | .str s => .ok (some s)
  | _ => .error ⟨.JsonError, none⟩

/-- Partially-filled record fields during serde struct deserialization. -/
structure RecFields where
  secret : Option (List Nat)
  algo : Option Algo
  digits : Option Nat
  step : Option Nat
  issuer : Option (Option (List Nat))
  username : Option (Option (List Nat))

/-- The empty field state. -/
def RecFields.init : RecFields := ⟨none, none, none, none, none, none⟩

/-- Consume one object member in serde struct style: fill the matching slot,
reject a duplicate, ignore an unknown key. -/
def readField (st : RecFields) (kv : List Nat × Json) : Except Error RecFields :=
  if kv.1 = asciiBytes "secret" then
    match st.secret with
    | some _ => .error ⟨.JsonError, none⟩
    | none =>
      match parseSecretVal kv.2 with
      | .ok v => .ok { st with secret := some v }
      | .error e => .error e
  else if kv.1 = asciiBytes "algo" then
    match st.algo with
    | some _ => .error ⟨.JsonError, none⟩
    | none =>
      match parseAlgoVal kv.2 with
      | .ok v => .ok { st with algo := some v }
      | .error e => .error e
  else if kv.1 = asciiBytes "digits" then
    match st.digits with
    | some _ => .error ⟨.JsonError, none⟩
    | none =>
      match parseU32Val kv.2 with
      | .ok v => .ok { st with digits := some v }
      | .error e => .error e
  else if kv.1 = asciiBytes "step" then
    match st.step with
    | some _ => .error ⟨.JsonError, none⟩
    | none =>
      match parseU64Val kv.2 with
      | .ok v => .ok { st with step := some v }
      | .error e => .error e
  else if kv.1 = asciiBytes "issuer" then
    match st.issuer with
    | some _ => .error ⟨.JsonError, none⟩
    | none =>
      match parseOptStrVal kv.2 with
      | .ok v => .ok { st with issuer := some v }
      | .error e => .error e
  else if kv.1 = asciiBytes "username" then
    match st.username with
    | some _ => .error ⟨.JsonError, none⟩
    | none =>
      match parseOptStrVal kv.2 with
      | .ok v => .ok { st with username := some v }
      | .error e => .error e
  else .ok st

/-- Fold `readField` over the object members. -/
def readFields (st : RecFields) : List (List Nat × Json) → Except Error RecFields
  | [] => .ok st
  | kv :: rest =>
    match readField st kv with
    | .error e => .error e
    | .ok st2 => readFields st2 rest

/-- Serde deserialization of a `TotpRecord` object: `secret` is mandatory;
`algo`, `digits`, `step` fall back to their `#[serde(default = ...)]`
functions; the `Option` fields fall back to `None`. -/
def fromJsonTotpRecord : Json → Except Error TotpRecord
  | .obj fields =>
    match readFields RecFields.init fields with
    | .error e => .error e
    | .ok st =>
      match st.secret with
      | none => .error ⟨.JsonError, none⟩
      | some sec =>
        .ok ⟨sec, st.algo.getD default_algo, st.digits.getD default_digits,
          st.step.getD default_step, st.issuer.getD none, st.username.getD none⟩
  | _ => .error ⟨.JsonError, none⟩

/-- Serde deserialization of the name-to-record mapping. -/
def fromJsonDictFields : List (List Nat × Json) → Except Error TotpRecordDict
  | [] => .ok []
  | (k, v) :: rest =>
    match fromJsonTotpRecord v, fromJsonDictFields rest with
    | .ok r, .ok d => .ok ((k, r) :: d)
    | .error e, _ => .error e
    | _, .error e => .error e

/-- Serde deserialization of the whole store. -/
def fromJsonDict : Json → Except Error TotpRecordDict
  | .obj fields => fromJsonDictFields fields
  | _ => .error ⟨.JsonError, none⟩

/-- Serde serialization of a record: fields in declaration order, `None`
serialized as `null`. -/
def recordToJson (r : TotpRecord) : Json :=
  .obj [(asciiBytes "secret", .arr (r.secret.map fun b => .num (Int.ofNat b))),
        (asciiBytes "algo", .str (asciiBytes r.algo.as_str)),
        (asciiBytes "digits", .num (Int.ofNat r.digits)),
        (asciiBytes "step", .num (Int.ofNat r.step)),
        (asciiBytes "issuer", match r.issuer with
          | none => .null
          | some s => .str s),
        (asciiBytes "username", match r.username with
          | none => .null
          | some s => .str s)]

/-- Serde serialization of the name-to-record mapping. -/
def dictToJson (d : TotpRecordDict) : Json :=
  .obj (d.map fun kv => (kv.1, recordToJson kv.2))

/-- Embedding of `serde_json::to_vec` for the record mapping: render the
value tree as compact JSON bytes (this serialization is infallible for this
type). The serialized mapping nests four levels deep (mapping, record,
secret array, byte), so render fuel 4 produces the full rendering. -/
def serde_json_to_vec (records : TotpRecordDict) : List Nat :=
  renderJsonF 4 (dictToJson records)

/-- Embedding of `serde_json::from_slice` for the record mapping: parse the
document (an error maps to `ErrorKind::JsonError` through `From`), then
deserialize. -/
def serde_json_from_slice (bs : List Nat) : Except Error TotpRecordDict :=
  match parseJson bs with
  | some (j, []) => fromJsonDict j
  | _ => .error ⟨.JsonError, none⟩

/-- The nonce-filling loop of `TotpFile::decrypt`: take the first 24 bytes,
or return the "invalid file format" error when the iterator runs dry. -/
def readNonce (data : List Nat) : Except Error (List Nat × List Nat) :=
  if data.length < chacha.NONCE_LEN then
    .error ⟨.ChaChaError, some "invalid file format for encrypted file"⟩
  else .ok (data.take chacha.NONCE_LEN, data.drop chacha.NONCE_LEN)

/-- Embedding of `TotpFile::decrypt`. The function first evaluates
`Vec::with_capacity(data.len() - chacha::NONCE_LEN)`: for `data` shorter than
the nonce length the `usize` subtraction overflows and the call panics
(`none`) — before the nonce loop can ever return its format error, which is
therefore unreachable. -/
def TotpFile.decrypt (key : List Nat) (data : List Nat) :
    Option (Except Error TotpRecordDict) :=
  if data.length < chacha.NONCE_LEN then none
  else
    match readNonce data with
    | .error e => some (.error e)
    | .ok (nonce, encrypted) =>
      match chacha.decrypt_data key nonce encrypted with
      | .error e => some (.error e)
      | .ok decrypted =>
        match serde_json_from_slice decrypted with
        | .error e => some (.error e)
        | .ok records => some (.ok records)

/-- Embedding of `TotpFile::encrypt`. The fresh random nonce that
`chacha::make_nonce` reads from the OS generator is passed explicitly; the
output is the nonce followed by the AEAD ciphertext. -/
def TotpFile.encrypt (key nonce : List Nat) (records : TotpRecordDict) :
    Except Error (List Nat) :=
  let data := serde_json_to_vec records
  match chacha.encrypt_data key nonce data with
  | .error e => .error e
  | .ok encrypted => .ok (nonce ++ encrypted)

/-- Embedding of the code-generation body of `print::print_totp_code`: the
window counter is `now / record.step` (a panic — `none` — when the step is
zero), fed big-endian into the generator. -/
def print_totp_code_code (record : TotpRecord) (now : Nat) : Option String :=
  match rust_div now record.step with
  | none => none
  | some window =>
    generate_integer_string record.algo record.secret record.digits
      (u64_to_be_bytes window)

end types

/-- Dynamic truncation written from the spec's words, for comparison with the
embedded `generate_integer_string`: the offset is the low nibble of the last
digest byte; `binary = ((hash[offset] & 0x7F) << 24) | (hash[offset+1] << 16)
| (hash[offset+2] << 8) | hash[offset+3]`; the result is `binary mod
10^digits` in decimal, left-padded with `'0'` to exactly `digits` characters
when shorter and never truncated when longer. -/
def spec_truncate (hash : List Nat) (digits : Nat) : String :=
  let offset := hash.getD (hash.length - 1) 0 &&& 0xf
  let binary := ((hash.getD offset 0 &&& 0x7f) <<< 24) |||
    (hash.getD (offset + 1) 0 <<< 16) ||| (hash.getD (offset + 2) 0 <<< 8) |||
    hash.getD (offset + 3) 0
  let s := Nat.repr (binary % 10 ^ digits)
  if s.length < digits then String.mk (List.replicate (digits - s.length) '0') ++ s
  else s

/-- Whether a JSON object carries a member with the given (ASCII) name. -/
def hasField (fields : List (List Nat × Json)) (name : String) : Bool :=
  fields.any fun kv => kv.1 = asciiBytes name

/-- The RFC 4226 test secret, the ASCII bytes of `"12345678901234567890"`. -/
def rfc4226Secret : List Nat := asciiBytes "12345678901234567890"

end Totp

deriving instance DecidableEq for Except

/-! ## Theorems -/

namespace Totp

/-- Index lookup succeeds below the length, returning the default-read. -/
theorem get?_eq_some_getD (l : List Nat) (i : Nat) (h : i < l.length) :
    l.get? i = some (l.getD i 0) := by
  simp [List.get?_eq_getElem?, List.getElem?_eq_getElem h]

/-- Bitwise or keeps values below a power of two. -/
theorem lorLt {x y n : Nat} (hx : x < 2 ^ n) (hy : y < 2 ^ n) : x ||| y < 2 ^ n :=
  Nat.bitwise_lt hx hy

/-- A SHA-1 digest is 20 bytes. -/
theorem sha1Out_length (st : Sha1State) : (sha1Out st).length = 20 := by
  obtain ⟨a, b, c, d, e⟩ := st
  simp [sha1Out, wordBytesBE]

/-- The big-endian bytes of a word are bytes. -/
theorem wordBytesBE_lt (w : Nat) : ∀ b ∈ wordBytesBE w, b < 256 := by
  intro b hb
  simp only [wordBytesBE, List.mem_cons, List.not_mem_nil, or_false] at hb
  rcases hb with rfl | rfl | rfl | rfl <;> omega

/-- SHA-1 digest bytes are bytes. -/
theorem sha1Out_lt (st : Sha1State) : ∀ b ∈ sha1Out st, b < 256 := by
  obtain ⟨a, b, c, d, e⟩ := st
  intro x hx
  simp only [sha1Out, List.mem_append] at hx
  rcases hx with (((h | h) | h) | h) | h <;> exact wordBytesBE_lt _ _ h

/-- The SHA-1 function always produces a 20-byte digest of byte values. -/
theorem sha1_length (msg : List Nat) : (sha1 msg).length = 20 :=
  sha1Out_length _

/-- SHA-1 output values are below 256. -/
theorem sha1_lt (msg : List Nat) : ∀ b ∈ sha1 msg, b < 256 :=
  sha1Out_lt _

/-- Serializing the lanes yields eight bytes per lane. -/
theorem laneFlat_length (A : List Nat) :
    ((A.map laneBytesLE).flatten).length = 8 * A.length := by
  induction A with
  | nil => simp
  | cons a rest ih =>
    simp only [List.map_cons, List.flatten_cons, List.length_append, ih,
      List.length_cons, laneBytesLE]
    simp
    omega

/-- The lane bytes are bytes. -/
theorem laneBytesLE_lt (w : Nat) : ∀ b ∈ laneBytesLE w, b < 256 := by
  intro b hb
  simp only [laneBytesLE, List.mem_cons, List.not_mem_nil, or_false] at hb
  rcases hb with rfl | rfl | rfl | rfl | rfl | rfl | rfl | rfl <;> omega

/-- One Keccak round always returns a 25-lane state. -/
theorem keccakRound_length (A : List Nat) (rc : Nat) :
    (keccakRound A rc).length = 25 := by
  simp [keccakRound, keccakIota]

/-- The Keccak permutation preserves the 25-lane state shape. -/
theorem foldl_keccakRound_length (l : List Nat) (A : List Nat) (h : A.length = 25) :
    (l.foldl keccakRound A).length = 25 := by
  induction l generalizing A with
  | nil => simpa using h
  | cons rc rest ih => simpa using ih _ (keccakRound_length A rc)

/-- The sponge absorption preserves the 25-lane state shape. -/
theorem keccakAbsorbF_length (fuel rate : Nat) (A msg : List Nat)
    (h : A.length = 25) : (keccakAbsorbF fuel rate A msg).length = 25 := by
  induction fuel generalizing A msg with
  | zero => cases msg <;> simpa [keccakAbsorbF] using h
  | succ fuel ih =>
    cases msg with
    | nil => simpa [keccakAbsorbF] using h
    | cons b rest =>
      simp only [keccakAbsorbF]
      exact ih _ _ (foldl_keccakRound_length _ _ (by simp [keccakAbsorbBlock]))

/-- A SHA3 digest has exactly the requested length (at most 200 bytes). -/
theorem sha3_length (rate d : Nat) (msg : List Nat) (hd : d ≤ 200) :
    (sha3 rate d msg).length = d := by
  simp only [sha3, keccakSqueeze, List.length_take, laneFlat_length, keccakAbsorb]
  rw [keccakAbsorbF_length _ _ _ _ (by simp)]
  omega

/-- SHA3 digest bytes are bytes. -/
theorem sha3_lt (rate d : Nat) (msg : List Nat) : ∀ b ∈ sha3 rate d msg, b < 256 := by
  intro b hb
  simp only [sha3, keccakSqueeze] at hb
  have hb2 := List.mem_of_mem_take hb
  obtain ⟨l, hl, hbl⟩ := List.mem_flatten.mp hb2
  obtain ⟨w, _, rfl⟩ := List.mem_map.mp hl
  exact laneBytesLE_lt w b hbl

/-- The digest `one_off` computes is at least 20 bytes long (20, 32 or 64
depending on the algorithm). -/
theorem hmacOf_length_ge (algo : otp.Algo) (s d : List Nat) :
    20 ≤ (otp.hmacOf algo s d).length := by
  cases algo <;>
    simp [otp.hmacOf, hmac, sha1Fn, sha3_256Fn, sha3_512Fn, sha1_length,
      sha3_256, sha3_512, sha3_length]

/-- The digest bytes `one_off` computes are bytes. -/
theorem hmacOf_lt (algo : otp.Algo) (s d : List Nat) :
    ∀ b ∈ otp.hmacOf algo s d, b < 256 := by
  cases algo <;>
    simp only [otp.hmacOf, hmac, sha1Fn, sha3_256Fn, sha3_512Fn, sha3_256, sha3_512]
  · exact sha1_lt _
  · exact sha3_lt _ _ _
  · exact sha3_lt _ _ _

/-- `one_off` never fails: it always returns the digest. -/
theorem one_off_eq (algo : otp.Algo) (s d : List Nat) :
    otp.one_off algo s d = .ok (otp.hmacOf algo s d) := by
  cases algo <;> rfl

/-- A default-read from a list of bytes is a byte. -/
theorem getD_lt_of_all (l : List Nat) (hall : ∀ b ∈ l, b < 256) (i : Nat) :
    l.getD i 0 < 256 := by
  rcases Nat.lt_or_ge i l.length with h | h
  · rw [List.getD_eq_getElem?_getD, List.getElem?_eq_getElem h]
    exact hall _ (List.getElem_mem h)
  · rw [List.getD_eq_getElem?_getD, List.getElem?_eq_none (by omega)]
    simp

/-- For digit widths up to 63 the generator succeeds and computes exactly the
spec's dynamic-truncation formula over the digest. -/
theorem gis_spec (algo : otp.Algo) (s data : List Nat) (digits : Nat)
    (hd : digits ≤ 63) :
    otp.generate_integer_string algo s digits data =
      some (spec_truncate (otp.hmacOf algo s data) digits) := by
  have hlen := hmacOf_length_ge algo s data
  have hbytes := hmacOf_lt algo s data
  set hash := otp.hmacOf algo s data with hhash
  have hlastv : hash.get? (hash.length - 1) = some (hash.getD (hash.length - 1) 0) :=
    get?_eq_some_getD _ _ (by omega)
  set lastByte := hash.getD (hash.length - 1) 0 with hlb
  set offset := lastByte &&& 0xf with hoff
  have hofflt : offset ≤ 15 := Nat.and_le_right
  have hv0 : hash.get? offset = some (hash.getD offset 0) :=
    get?_eq_some_getD _ _ (by omega)
  have hv1 : hash.get? (offset + 1) = some (hash.getD (offset + 1) 0) :=
    get?_eq_some_getD _ _ (by omega)
  have hv2 : hash.get? (offset + 2) = some (hash.getD (offset + 2) 0) :=
    get?_eq_some_getD _ _ (by omega)
  have hv3 : hash.get? (offset + 3) = some (hash.getD (offset + 3) 0) :=
    get?_eq_some_getD _ _ (by omega)
  set b0 := hash.getD offset 0 with hb0
  set b1 := hash.getD (offset + 1) 0 with hb1
  set b2 := hash.getD (offset + 2) 0 with hb2
  set b3 := hash.getD (offset + 3) 0 with hb3
  have hbin : ((b0 &&& 0x7f) <<< 24) ||| (b1 <<< 16) ||| (b2 <<< 8) ||| b3 <
      2 ^ 31 := by
    have h0 : b0 &&& 0x7f ≤ 0x7f := Nat.and_le_right
    have h1 : b1 < 256 := getD_lt_of_all _ hbytes _
    have h2 : b2 < 256 := getD_lt_of_all _ hbytes _
    have h3 : b3 < 256 := getD_lt_of_all _ hbytes _
    apply lorLt
    apply lorLt
    apply lorLt
    · rw [Nat.shiftLeft_eq]
      omega
    · rw [Nat.shiftLeft_eq]
      omega
    · rw [Nat.shiftLeft_eq]
      omega
    · omega
  set bin := ((b0 &&& 0x7f) <<< 24) ||| (b1 <<< 16) ||| (b2 <<< 8) ||| b3 with hbineq
  have hbin64 : u64 bin = bin := Nat.mod_eq_of_lt (by
    have : (2 : Nat) ^ 31 < 18446744073709551616 := by norm_num
    omega)
  have hm0 : u64 (10 ^ digits) ≠ 0 ∧ bin % u64 (10 ^ digits) = bin % 10 ^ digits := by
    rcases Nat.lt_or_ge digits 20 with hlt | hge
    · have hsmall : (10 : Nat) ^ digits < 18446744073709551616 := by
        calc (10 : Nat) ^ digits ≤ 10 ^ 19 := Nat.pow_le_pow_right (by norm_num) (by omega)
        _ < 18446744073709551616 := by norm_num
      have heq : u64 (10 ^ digits) = 10 ^ digits := Nat.mod_eq_of_lt hsmall
      rw [heq]
      have hpos : 0 < (10 : Nat) ^ digits := pow_pos (by norm_num) _
      exact ⟨by omega, rfl⟩
    · have hball : ∀ dd, dd < 64 → 20 ≤ dd → 2 ^ 31 < 10 ^ dd % 18446744073709551616 := by
        decide
      have hmgt : 2 ^ 31 < u64 (10 ^ digits) := hball digits (by omega) hge
      have hspec : (2 : Nat) ^ 31 < 10 ^ digits := by
        calc (2 : Nat) ^ 31 < 10 ^ 20 := by norm_num
        _ ≤ 10 ^ digits := Nat.pow_le_pow_right (by norm_num) hge
      constructor
      · omega
      · rw [Nat.mod_eq_of_lt (by omega), Nat.mod_eq_of_lt (by omega)]
  simp only [otp.generate_integer_string, one_off_eq, ← hhash]
  rw [if_neg (by omega)]
  rw [hlastv]
  simp only [← hlb, ← hoff]
  rw [hv0, hv1, hv2, hv3]
  simp only [← hb0, ← hb1, ← hb2, ← hb3, ← hbineq]
  rw [hbin64, if_neg hm0.1, hm0.2]
  simp only [spec_truncate, otp.pad_string, ← hlb, ← hoff, ← hb0, ← hb1, ← hb2,
    ← hb3, ← hbineq]

/-- A Poly1305 tag is 16 bytes. -/
theorem poly1305_length (k m : List Nat) : (poly1305 k m).length = 16 := rfl

/-- XOR-ing the same keystream twice is the identity. -/
theorem xorKs_cancel (ks : Nat → Nat) (i : Nat) (l : List Nat) :
    xorKs ks i (xorKs ks i l) = l := by
  induction l generalizing i with
  | nil => rfl
  | cons b rest ih => simp [xorKs, Nat.xor_cancel_right, ih]

/-- Opening a sealed message with the same key and nonce recovers it. -/
theorem aeadOpen_seal (key nonce p : List Nat) :
    aeadOpen key nonce (aeadSeal key nonce p) = some p := by
  simp only [aeadSeal, aeadOpen]
  set subkey := hchacha20 key (nonce.take 16) with hsub
  set iv := [0, 0, 0, 0] ++ (nonce.drop 16).take 8 with hiv
  set polyKey := (chachaBlock subkey 0 iv).take 32 with hpk
  set ct := xorKs (xchachaKs subkey iv) 0 p with hct
  set tag := poly1305 polyKey (aeadMacData ct) with htag
  have htlen : tag.length = 16 := poly1305_length _ _
  have hlen : (ct ++ tag).length = ct.length + 16 := by simp [htlen]
  rw [if_neg (by omega)]
  have harith : (ct ++ tag).length - 16 = ct.length := by omega
  rw [harith, List.take_left, List.drop_left, ← htag, if_pos rfl, hct,
    xorKs_cancel]

/-- `chacha::decrypt_data` inverts the seal under a well-formed key. -/
theorem decrypt_data_seal (key nonce p : List Nat) (hk : key.length = 32) :
    chacha.decrypt_data key nonce (aeadSeal key nonce p) = .ok p := by
  simp only [chacha.decrypt_data, chacha.KEY_LEN]
  rw [if_neg (by omega), aeadOpen_seal]

/-- `chacha::encrypt_data` succeeds under a well-formed key. -/
theorem encrypt_data_seal (key nonce p : List Nat) (hk : key.length = 32) :
    chacha.encrypt_data key nonce p = .ok (aeadSeal key nonce p) := by
  simp only [chacha.encrypt_data, chacha.KEY_LEN]
  rw [if_neg (by omega)]

/-- Reading back a rendered hexadecimal digit. -/
theorem hexVal_hexDigit (x : Nat) (h : x < 16) : hexVal (hexDigit x) = some x := by
  rcases Nat.lt_or_ge x 10 with h10 | h10
  · rw [hexDigit, if_pos h10, hexVal, if_pos (by omega)]
    congr 1
    omega
  · rw [hexDigit, if_neg (by omega), hexVal, if_neg (by omega), if_pos (by omega)]
    congr 1
    omega

/-- Unfolding of the string-body parser on a quote. -/
theorem psb_quote (f : Nat) (rest : List Nat) :
    parseStrBodyF (f + 1) (34 :: rest) = some ([], rest) := rfl

/-- Unfolding of the string-body parser on an escaped quote. -/
theorem psb_esc34 (f : Nat) (r : List Nat) :
    parseStrBodyF (f + 1) (92 :: 34 :: r) =
      (fun p => (34 :: p.1, p.2)) <$> parseStrBodyF f r := rfl

/-- Unfolding of the string-body parser on an escaped backslash. -/
theorem psb_esc92 (f : Nat) (r : List Nat) :
    parseStrBodyF (f + 1) (92 :: 92 :: r) =
      (fun p => (92 :: p.1, p.2)) <$> parseStrBodyF f r := rfl

/-- Unfolding of the string-body parser on `\b`. -/
theorem psb_esc98 (f : Nat) (r : List Nat) :
    parseStrBodyF (f + 1) (92 :: 98 :: r) =
      (fun p => (8 :: p.1, p.2)) <$> parseStrBodyF f r := rfl

/-- Unfolding of the string-body parser on `\t`. -/
theorem psb_esc116 (f : Nat) (r : List Nat) :
    parseStrBodyF (f + 1) (92 :: 116 :: r) =
      (fun p => (9 :: p.1, p.2)) <$> parseStrBodyF f r := rfl

/-- Unfolding of the string-body parser on `\n`. -/
theorem psb_esc110 (f : Nat) (r : List Nat) :
    parseStrBodyF (f + 1) (92 :: 110 :: r) =
      (fun p => (10 :: p.1, p.2)) <$> parseStrBodyF f r := rfl

/-- Unfolding of the string-body parser on `\f`. -/
theorem psb_esc102 (f : Nat) (r : List Nat) :
    parseStrBodyF (f + 1) (92 :: 102 :: r) =
      (fun p => (12 :: p.1, p.2)) <$> parseStrBodyF f r := rfl

/-- Unfolding of the string-body parser on `\r`. -/
theorem psb_esc114 (f : Nat) (r : List Nat) :
    parseStrBodyF (f + 1) (92 :: 114 :: r) =
      (fun p => (13 :: p.1, p.2)) <$> parseStrBodyF f r := rfl

/-- Unfolding of the string-body parser on a `\u` escape. -/
theorem psb_escU (f h1 h2 h3 h4 : Nat) (r : List Nat) :
    parseStrBodyF (f + 1) (92 :: 117 :: h1 :: h2 :: h3 :: h4 :: r) =
      (match hexVal h1, hexVal h2, hexVal h3, hexVal h4 with
      | some a, some b2, some c, some d =>
        let code := ((a * 16 + b2) * 16 + c) * 16 + d
        if code < 256 then (fun p => (code :: p.1, p.2)) <$> parseStrBodyF f r
        else none
      | _, _, _, _ => none) := rfl

/-- Unfolding of the string-body parser on a cons cell. -/
theorem psb_cons (f b : Nat) (rest : List Nat) :
    parseStrBodyF (f + 1) (b :: rest) =
      (if b = 34 then some ([], rest)
      else if b = 92 then
        match rest with
        | 34 :: r => (fun p => (34 :: p.1, p.2)) <$> parseStrBodyF f r
        | 92 :: r => (fun p => (92 :: p.1, p.2)) <$> parseStrBodyF f r
        | 47 :: r => (fun p => (47 :: p.1, p.2)) <$> parseStrBodyF f r
        | 98 :: r => (fun p => (8 :: p.1, p.2)) <$> parseStrBodyF f r
        | 116 :: r => (fun p => (9 :: p.1, p.2)) <$> parseStrBodyF f r
        | 110 :: r => (fun p => (10 :: p.1, p.2)) <$> parseStrBodyF f r
        | 102 :: r => (fun p => (12 :: p.1, p.2)) <$> parseStrBodyF f r
        | 114 :: r => (fun p => (13 :: p.1, p.2)) <$> parseStrBodyF f r
        | 117 :: h1 :: h2 :: h3 :: h4 :: r =>
          match hexVal h1, hexVal h2, hexVal h3, hexVal h4 with
          | some a, some b2, some c, some d =>
            let code := ((a * 16 + b2) * 16 + c) * 16 + d
            if code < 256 then (fun p => (code :: p.1, p.2)) <$> parseStrBodyF f r
            else none
          | _, _, _, _ => none
        | _ => none
      else (fun p => (b :: p.1, p.2)) <$> parseStrBodyF f rest) := rfl

/-- Unfolding of the string-body parser on an unescaped byte. -/
theorem psb_catchall (f b : Nat) (rest : List Nat) (h34 : ¬b = 34) (h92 : ¬b = 92) :
    parseStrBodyF (f + 1) (b :: rest) =
      (fun p => (b :: p.1, p.2)) <$> parseStrBodyF f rest := by
  rw [psb_cons, if_neg h34, if_neg h92]

/-- Parsing an escaped string body recovers the original bytes. -/
theorem parseStrBody_escaped (s : List Nat) :
    ∀ fuel rest, s.length < fuel →
      parseStrBodyF fuel ((s.map escapeByte).flatten ++ 34 :: rest) = some (s, rest) := by
  induction s with
  | nil =>
    intro fuel rest hf
    obtain ⟨f, rfl⟩ : ∃ f, fuel = f + 1 := ⟨fuel - 1, by omega⟩
    simp [psb_quote]
  | cons b bs ih =>
    intro fuel rest hf
    obtain ⟨f, rfl⟩ : ∃ f, fuel = f + 1 := ⟨fuel - 1, by omega⟩
    have hbs : bs.length < f := by
      simp only [List.length_cons] at hf
      omega
    have ihx := ih f rest hbs
    simp only [List.map_cons, List.flatten_cons, List.append_assoc]
    by_cases h1 : b = 34
    · subst h1
      rw [show escapeByte 34 = [92, 34] from rfl]
      simp only [List.cons_append, List.nil_append, psb_esc34, ihx, Option.map_some]
    · by_cases h2 : b = 92
      · subst h2
        rw [show escapeByte 92 = [92, 92] from rfl]
        simp only [List.cons_append, List.nil_append, psb_esc92, ihx, Option.map_some]
      · by_cases h3 : b = 8
        · subst h3
          rw [show escapeByte 8 = [92, 98] from rfl]
          simp only [List.cons_append, List.nil_append, psb_esc98, ihx, Option.map_some]
        · by_cases h4 : b = 9
          · subst h4
            rw [show escapeByte 9 = [92, 116] from rfl]
            simp only [List.cons_append, List.nil_append, psb_esc116, ihx,
              Option.map_some]
          · by_cases h5 : b = 10
            · subst h5
              rw [show escapeByte 10 = [92, 110] from rfl]
              simp only [List.cons_append, List.nil_append, psb_esc110, ihx,
                Option.map_some]
            · by_cases h6 : b = 12
              · subst h6
                rw [show escapeByte 12 = [92, 102] from rfl]
                simp only [List.cons_append, List.nil_append, psb_esc102, ihx,
                  Option.map_some]
              · by_cases h7 : b = 13
                · subst h7
                  rw [show escapeByte 13 = [92, 114] from rfl]
                  simp only [List.cons_append, List.nil_append, psb_esc114, ihx,
                    Option.map_some]
                · by_cases h8 : b < 32
                  · have he : escapeByte b =
                        [92, 117, 48, 48, hexDigit (b / 16), hexDigit (b % 16)] := by
                      unfold escapeByte
                      rw [if_neg h1, if_neg h2, if_neg h3, if_neg h4, if_neg h5,
                        if_neg h6, if_neg h7, if_pos h8]
                    rw [he]
                    simp only [List.cons_append, List.nil_append, psb_escU]
                    rw [hexVal_hexDigit (b / 16) (by omega),
                      hexVal_hexDigit (b % 16) (by omega)]
                    rw [show hexVal 48 = some 0 from rfl]
                    simp only []
                    have hcode : ((0 * 16 + 0) * 16 + b / 16) * 16 + b % 16 = b := by
                      omega
                    rw [hcode, if_pos (by omega : b < 256), ihx]
                    rfl
                  · have he : escapeByte b = [b] := by
                      unfold escapeByte
                      rw [if_neg h1, if_neg h2, if_neg h3, if_neg h4, if_neg h5,
                        if_neg h6, if_neg h7, if_neg h8]
                    rw [he]
                    simp only [List.cons_append, List.nil_append,
                      psb_catchall f b _ h1 h2, ihx, Option.map_some]

/-- Unfolding of the value parser on a cons cell. -/
theorem pj_cons (fuel b : Nat) (rest : List Nat) :
    parseJsonF (fuel + 1) (b :: rest) =
      (if b = 110 then
        match rest with
        | 117 :: 108 :: 108 :: r => some (.null, r)
        | _ => none
      else if b = 116 then
        match rest with
        | 114 :: 117 :: 101 :: r => some (.bool true, r)
        | _ => none
      else if b = 102 then
        match rest with
        | 97 :: 108 :: 115 :: 101 :: r => some (.bool false, r)
        | _ => none
      else if b = 34 then (fun p => (Json.str p.1, p.2)) <$> parseStrBodyF (fuel + 1) rest
      else if b = 91 then
        match rest with
        | [] => none
        | c :: r2 =>
          if c = 93 then some (.arr [], r2)
          else
            match parseJsonF fuel (c :: r2) with
            | none => none
            | some (v, r) => parseArrRestF fuel [v] r
      else if b = 123 then
        match rest with
        | [] => none
        | c :: r2 =>
          if c = 125 then some (.obj [], r2)
          else if c = 34 then
            match parseStrBodyF (fuel + 1) r2 with
            | none => none
            | some (k, 58 :: r3) =>
              match parseJsonF fuel r3 with
              | none => none
              | some (v, r4) => parseObjRestF fuel [(k, v)] r4
            | some _ => none
          else none
      else if b = 45 then
        match digitsSpan rest with
        | ([], _) => none
        | (ds, r) => some (.num (-(Int.ofNat (digitsVal ds))), r)
      else if 48 ≤ b ∧ b ≤ 57 then
        match digitsSpan (b :: rest) with
        | (ds, r) => some (.num (Int.ofNat (digitsVal ds)), r)
      else none) := rfl

/-- Unfolding of the value parser on `null`. -/
theorem pj_null (f : Nat) (r : List Nat) :
    parseJsonF (f + 1) (110 :: 117 :: 108 :: 108 :: r) = some (.null, r) := rfl

/-- Unfolding of the value parser on a string opener. -/
theorem pj_quote (f : Nat) (rest : List Nat) :
    parseJsonF (f + 1) (34 :: rest) =
      (fun p => (Json.str p.1, p.2)) <$> parseStrBodyF (f + 1) rest := rfl

/-- Unfolding of the value parser on an array opener with a visible next
byte. -/
theorem pj_open91 (f c : Nat) (r2 : List Nat) :
    parseJsonF (f + 1) (91 :: c :: r2) =
      (if c = 93 then some (.arr [], r2)
      else
        match parseJsonF f (c :: r2) with
        | none => none
        | some (v, r) => parseArrRestF f [v] r) := rfl

/-- Unfolding of the value parser on an object opener followed by a key. -/
theorem pj_obj34 (f : Nat) (r2 : List Nat) :
    parseJsonF (f + 1) (123 :: 34 :: r2) =
      (match parseStrBodyF (f + 1) r2 with
      | none => none
      | some (k, 58 :: r3) =>
        match parseJsonF f r3 with
        | none => none
        | some (v, r4) => parseObjRestF f [(k, v)] r4
      | some _ => none) := rfl

/-- Unfolding of the array-tail parser on the closing bracket. -/
theorem par_close (f : Nat) (acc : List Json) (r : List Nat) :
    parseArrRestF (f + 1) acc (93 :: r) = some (.arr acc.reverse, r) := rfl

/-- Unfolding of the array-tail parser on a comma. -/
theorem par_comma (f : Nat) (acc : List Json) (r : List Nat) :
    parseArrRestF (f + 1) acc (44 :: r) =
      (match parseJsonF f r with
      | none => none
      | some (v, r2) => parseArrRestF f (v :: acc) r2) := rfl

/-- Unfolding of the object-tail parser on the closing brace. -/
theorem por_close (f : Nat) (acc : List (List Nat × Json)) (r : List Nat) :
    parseObjRestF (f + 1) acc (125 :: r) = some (.obj acc.reverse, r) := rfl

/-- Unfolding of the object-tail parser on a comma and a key opener. -/
theorem por_comma (f : Nat) (acc : List (List Nat × Json)) (r2 : List Nat) :
    parseObjRestF (f + 1) acc (44 :: 34 :: r2) =
      (match parseStrBodyF (f + 1) r2 with
      | none => none
      | some (k, 58 :: r3) =>
        match parseJsonF f r3 with
        | none => none
        | some (v, r4) => parseObjRestF f ((k, v) :: acc) r4
      | some _ => none) := rfl

/-- Rendered decimal digits are digit bytes. -/
theorem natDecF_digits (fuel : Nat) :
    ∀ n, n < fuel → ∀ b ∈ natDecF fuel n, 48 ≤ b ∧ b ≤ 57 := by
  induction fuel with
  | zero => intro n h; omega
  | succ f ih =>
    intro n h b hb
    simp only [natDecF] at hb
    by_cases h10 : n < 10
    · rw [if_pos h10] at hb
      simp only [List.mem_cons, List.not_mem_nil, or_false] at hb
      omega
    · rw [if_neg h10] at hb
      rcases List.mem_append.mp hb with hb | hb
      · exact ih (n / 10) (by omega) b hb
      · simp only [List.mem_cons, List.not_mem_nil, or_false] at hb
        have : n % 10 < 10 := Nat.mod_lt _ (by omega)
        omega

/-- Reading back rendered decimal digits gives the original number. -/
theorem natDecF_val (fuel : Nat) : ∀ n, n < fuel → digitsVal (natDecF fuel n) = n := by
  induction fuel with
  | zero => intro n h; omega
  | succ f ih =>
    intro n h
    simp only [natDecF]
    by_cases h10 : n < 10
    · rw [if_pos h10]
      simp only [digitsVal, List.foldl_cons, List.foldl_nil]
      omega
    · rw [if_neg h10]
      simp only [digitsVal, List.foldl_append, List.foldl_cons, List.foldl_nil]
      have := ih (n / 10) (by omega)
      simp only [digitsVal] at this
      rw [this]
      omega

/-- A rendered number is never empty. -/
theorem natDecBytes_ne_nil (n : Nat) : natDecBytes n ≠ [] := by
  by_cases h : n < 10 <;> simp [natDecBytes, natDecF, h]

/-- The digit span of digits followed by a non-digit splits exactly there. -/
theorem digitsSpan_append (ds : List Nat) (rest : List Nat)
    (hds : ∀ b ∈ ds, 48 ≤ b ∧ b ≤ 57)
    (hrest : ∀ b, rest.head? = some b → ¬(48 ≤ b ∧ b ≤ 57)) :
    digitsSpan (ds ++ rest) = (ds, rest) := by
  induction ds with
  | nil =>
    cases rest with
    | nil => rfl
    | cons b r =>
      simp only [List.nil_append, digitsSpan]
      rw [if_neg (hrest b rfl)]
  | cons d ds ih =>
    simp only [List.cons_append, digitsSpan, List.append_eq]
    rw [if_pos (hds d (by simp)), ih (fun b hb => hds b (by simp [hb]))]

/-- Parsing a rendered number (followed by a non-digit) recovers it. -/
theorem parse_natDec (fuel n : Nat) (rest : List Nat)
    (hrest : ∀ b, rest.head? = some b → ¬(48 ≤ b ∧ b ≤ 57)) :
    parseJsonF (fuel + 1) (natDecBytes n ++ rest) = some (.num (Int.ofNat n), rest) := by
  obtain ⟨b, bs, hcons⟩ : ∃ b bs, natDecBytes n = b :: bs := by
    cases h : natDecBytes n with
    | nil => exact absurd h (natDecBytes_ne_nil n)
    | cons b bs => exact ⟨b, bs, rfl⟩
  have hdig : 48 ≤ b ∧ b ≤ 57 :=
    natDecF_digits (n + 1) n (by omega) b (by rw [natDecBytes] at hcons; rw [hcons]; simp)
  have hall : ∀ x ∈ b :: bs, 48 ≤ x ∧ x ≤ 57 := by
    rw [← hcons, natDecBytes]
    exact natDecF_digits (n + 1) n (by omega)
  have hval : digitsVal (b :: bs) = n := by
    rw [← hcons, natDecBytes]
    exact natDecF_val (n + 1) n (by omega)
  rw [hcons]
  simp only [List.cons_append]
  rw [pj_cons, if_neg (by omega), if_neg (by omega), if_neg (by omega),
    if_neg (by omega), if_neg (by omega), if_neg (by omega), if_neg (by omega),
    if_pos hdig]
  have hspan : digitsSpan (b :: (bs ++ rest)) = (b :: bs, rest) :=
    digitsSpan_append (b :: bs) rest hall hrest
  rw [hspan]
  simp [hval]

/-- A natural number renders as its decimal digits. -/
theorem render_num (f : Nat) (n : Nat) :
    renderJsonF (f + 1) (.num (Int.ofNat n)) = natDecBytes n := by
  simp [renderJsonF, intDecBytes]

/-- A comma-joined rendering splits into the head and a comma-prefixed
tail. -/
theorem commaSep_cons (x : List Nat) (xs : List (List Nat)) :
    commaSep (x :: xs) = x ++ (xs.map fun y => 44 :: y).flatten := by
  induction xs generalizing x with
  | nil => simp [commaSep]
  | cons y ys ih => simp [commaSep, ih, List.append_assoc]

/-- The byte after a rendered array element is a comma or the closing
bracket, never a digit. -/
theorem arrTail_head (ns : List Nat) (rest : List Nat) :
    ∀ b, ((ns.map fun n => 44 :: natDecBytes n).flatten ++ 93 :: rest).head? = some b →
      ¬(48 ≤ b ∧ b ≤ 57) := by
  intro b hb
  cases ns with
  | nil =>
    simp only [List.map_nil, List.flatten_nil, List.nil_append, List.head?_cons,
      Option.some.injEq] at hb
    omega
  | cons n ns =>
    simp only [List.map_cons, List.flatten_cons, List.cons_append, List.head?_cons,
      Option.some.injEq] at hb
    omega

/-- A rendered array unfolds to its bracketed comma-joined items. -/
theorem render_arr (f : Nat) (xs : List Json) :
    renderJsonF (f + 1) (.arr xs) =
      [91] ++ commaSep (xs.map (renderJsonF f)) ++ [93] := rfl

/-- Parsing the comma-separated tail of a rendered number array. -/
theorem parse_arrTail (ns : List Nat) :
    ∀ fuel (acc : List Json) (rest : List Nat), ns.length + 1 ≤ fuel →
      parseArrRestF fuel acc ((ns.map fun n => 44 :: natDecBytes n).flatten ++ 93 :: rest) =
        some (.arr (acc.reverse ++ ns.map fun n => Json.num (Int.ofNat n)), rest) := by
  induction ns with
  | nil =>
    intro fuel acc rest hf
    obtain ⟨f, rfl⟩ : ∃ f, fuel = f + 1 := ⟨fuel - 1, by omega⟩
    simp [par_close]
  | cons n ns ih =>
    intro fuel acc rest hf
    obtain ⟨f, rfl⟩ : ∃ f, fuel = f + 1 := ⟨fuel - 1, by omega⟩
    simp only [List.length_cons] at hf
    simp only [List.map_cons, List.flatten_cons, List.cons_append, List.append_assoc]
    rw [par_comma]
    obtain ⟨g, rfl⟩ : ∃ g, f = g + 1 := ⟨f - 1, by omega⟩
    rw [parse_natDec g n _ (arrTail_head ns rest)]
    show parseArrRestF (g + 1) (Json.num (Int.ofNat n) :: acc)
        ((ns.map fun m => 44 :: natDecBytes m).flatten ++ 93 :: rest) = _
    rw [ih (g + 1) (Json.num (Int.ofNat n) :: acc) rest (by omega)]
    simp

/-- The rendered bytes of an array of numbers. -/
theorem render_numArr (f : Nat) (n : Nat) (ns : List Nat) :
    renderJsonF (f + 2) (.arr ((n :: ns).map fun m => Json.num (Int.ofNat m))) =
      91 :: (natDecBytes n ++ ((ns.map fun m => 44 :: natDecBytes m).flatten ++ [93])) := by
  rw [render_arr, List.map_map, List.map_cons, commaSep_cons, List.map_map]
  simp only [Function.comp_apply, Function.comp_def, render_num]
  simp [List.append_assoc]

/-- Parsing a rendered number array recovers it. -/
theorem parse_numArray (fuel f : Nat) (ns : List Nat) (rest : List Nat)
    (hfuel : ns.length + 1 ≤ fuel) :
    parseJsonF (fuel + 1)
        (renderJsonF (f + 2) (.arr (ns.map fun m => Json.num (Int.ofNat m))) ++ rest) =
      some (.arr (ns.map fun m => Json.num (Int.ofNat m)), rest) := by
  cases ns with
  | nil =>
    rw [show renderJsonF (f + 2) (.arr (([] : List Nat).map fun m => Json.num (Int.ofNat m))) =
      [91, 93] from rfl]
    rw [show ([91, 93] : List Nat) ++ rest = 91 :: 93 :: rest from rfl]
    rw [pj_open91, if_pos rfl]
    simp
  | cons n ns =>
    rw [render_numArr]
    obtain ⟨b, bs, hcons⟩ : ∃ b bs, natDecBytes n = b :: bs := by
      cases h : natDecBytes n with
      | nil => exact absurd h (natDecBytes_ne_nil n)
      | cons b bs => exact ⟨b, bs, rfl⟩
    have hdig : 48 ≤ b ∧ b ≤ 57 :=
      natDecF_digits (n + 1) n (by omega) b (by rw [natDecBytes] at hcons; rw [hcons]; simp)
    rw [hcons]
    simp only [List.cons_append, List.append_assoc, List.nil_append]
    rw [pj_open91, if_neg (by omega : ¬b = 93)]
    rw [← List.cons_append, ← hcons]
    obtain ⟨g, rfl⟩ : ∃ g, fuel = g + 1 := ⟨fuel - 1, by omega⟩
    rw [parse_natDec g n _ (arrTail_head ns rest)]
    show parseArrRestF (g + 1) [Json.num (Int.ofNat n)]
        ((ns.map fun m => 44 :: natDecBytes m).flatten ++ 93 :: rest) = _
    rw [parse_arrTail ns (g + 1) [Json.num (Int.ofNat n)] rest (by simp at hfuel; omega)]
    simp

/-- A rendered string unfolds to its quoted escaped bytes. -/
theorem render_str (f : Nat) (s : List Nat) :
    renderJsonF (f + 1) (.str s) = [34] ++ (s.map escapeByte).flatten ++ [34] := rfl

/-- `null` renders to its four literal bytes. -/
theorem render_null (f : Nat) : renderJsonF (f + 1) .null = [110, 117, 108, 108] := rfl

/-- A rendered object unfolds to its braced comma-joined members. -/
theorem render_obj (f : Nat) (fs : List (List Nat × Json)) :
    renderJsonF (f + 1) (.obj fs) =
      [123] ++
        commaSep (fs.map fun kv =>
          [34] ++ (kv.1.map escapeByte).flatten ++ [34, 58] ++ renderJsonF f kv.2) ++
        [125] := rfl

/-- Parsing a rendered string value recovers it. -/
theorem parse_str (fuel f : Nat) (s : List Nat) (rest : List Nat)
    (hlen : s.length ≤ fuel) :
    parseJsonF (fuel + 1) (renderJsonF (f + 1) (.str s) ++ rest) =
      some (.str s, rest) := by
  rw [render_str]
  simp only [List.cons_append, List.nil_append, List.append_assoc]
  rw [pj_quote, parseStrBody_escaped s (fuel + 1) rest (by omega)]
  rfl

/-- Parsing rendered `null` recovers it. -/
theorem parse_null (fuel f : Nat) (rest : List Nat) :
    parseJsonF (fuel + 1) (renderJsonF (f + 1) .null ++ rest) = some (.null, rest) := by
  rw [render_null]
  exact pj_null fuel rest

/-- The byte after a rendered object member is a comma or the closing brace. -/
theorem objTail_head (ms : List (List Nat × Json)) (bytesOf : (List Nat × Json) → List Nat)
    (rest : List Nat) :
    ((ms.map fun kv => 44 :: bytesOf kv).flatten ++ 125 :: rest).head? = some 44 ∨
      ((ms.map fun kv => 44 :: bytesOf kv).flatten ++ 125 :: rest).head? = some 125 := by
  cases ms <;> simp

/-- Parsing the comma-separated tail of a rendered object. -/
theorem parse_objTail (f W : Nat) (ms : List (List Nat × Json)) :
    ∀ fuel (acc : List (List Nat × Json)) (rest : List Nat),
      (∀ kv ∈ ms, ∀ (fuel' : Nat) (rest' : List Nat), W ≤ fuel' →
        (rest'.head? = some 44 ∨ rest'.head? = some 125) →
        parseJsonF (fuel' + 1) (renderJsonF (f + 2) kv.2 ++ rest') = some (kv.2, rest')) →
      (∀ kv ∈ ms, kv.1.length ≤ W) →
      2 * ms.length + W + 1 ≤ fuel →
      parseObjRestF fuel acc
          ((ms.map fun kv => 44 :: 34 ::
            ((kv.1.map escapeByte).flatten ++ 34 :: 58 :: renderJsonF (f + 2) kv.2)).flatten
            ++ 125 :: rest) =
        some (.obj (acc.reverse ++ ms), rest) := by
  induction ms with
  | nil =>
    intro fuel acc rest _ _ hf
    obtain ⟨g, rfl⟩ : ∃ g, fuel = g + 1 := ⟨fuel - 1, by omega⟩
    simp [por_close]
  | cons kv ms ih =>
    intro fuel acc rest hv hk hf
    obtain ⟨g, rfl⟩ : ∃ g, fuel = g + 1 := ⟨fuel - 1, by omega⟩
    simp only [List.length_cons] at hf
    simp only [List.map_cons, List.flatten_cons, List.cons_append, List.nil_append,
      List.append_assoc]
    rw [por_comma]
    rw [parseStrBody_escaped kv.1 (g + 1) _ (by have := hk kv (by simp); omega)]
    obtain ⟨g2, rfl⟩ : ∃ g2, g = g2 + 1 := ⟨g - 1, by omega⟩
    have hvkv := hv kv (by simp) g2
      ((ms.map fun kv => 44 :: 34 ::
        ((kv.1.map escapeByte).flatten ++ 34 :: 58 :: renderJsonF (f + 2) kv.2)).flatten
        ++ 125 :: rest) (by omega) (objTail_head ms _ rest)
    simp only [hvkv]
    rw [ih (g2 + 1) ((kv.1, kv.2) :: acc) rest
      (fun kv2 h2 => hv kv2 (by simp [h2])) (fun kv2 h2 => hk kv2 (by simp [h2]))
      (by omega)]
    simp

/-- Parsing a rendered non-empty object recovers it. -/
theorem parse_obj (f W : Nat) (k1 : List Nat) (v1 : Json) (ms : List (List Nat × Json))
    (fuel : Nat) (rest : List Nat)
    (hv : ∀ kv ∈ (k1, v1) :: ms, ∀ (fuel' : Nat) (rest' : List Nat), W ≤ fuel' →
      (rest'.head? = some 44 ∨ rest'.head? = some 125) →
      parseJsonF (fuel' + 1) (renderJsonF (f + 2) kv.2 ++ rest') = some (kv.2, rest'))
    (hk : ∀ kv ∈ (k1, v1) :: ms, kv.1.length ≤ W)
    (hfuel : 2 * ms.length + W + 3 ≤ fuel) :
    parseJsonF (fuel + 1) (renderJsonF (f + 3) (.obj ((k1, v1) :: ms)) ++ rest) =
      some (.obj ((k1, v1) :: ms), rest) := by
  rw [show f + 3 = f + 2 + 1 from rfl, render_obj (f + 2), List.map_cons, commaSep_cons,
    List.map_map]
  simp only [List.cons_append, List.nil_append, List.append_assoc, Function.comp_def]
  rw [pj_obj34]
  rw [parseStrBody_escaped k1 (fuel + 1) _ (by have := hk (k1, v1) (by simp); simp at this; omega)]
  obtain ⟨g, rfl⟩ : ∃ g, fuel = g + 1 := ⟨fuel - 1, by omega⟩
  have hv1 := hv (k1, v1) (by simp) g
    ((ms.map fun kv => 44 :: 34 ::
      ((kv.1.map escapeByte).flatten ++ 34 :: 58 :: renderJsonF (f + 2) kv.2)).flatten
      ++ 125 :: rest) (by omega) (objTail_head ms _ rest)
  simp only [] at hv1
  simp only [hv1]
  rw [parse_objTail f W ms (g + 1) [(k1, v1)] rest
    (fun kv2 h2 => hv kv2 (by simp [h2])) (fun kv2 h2 => hk kv2 (by simp [h2]))
    (by omega)]
  simp

/-- Heads that are separators are not digits. -/
theorem sep_head_not_digit (rest' : List Nat)
    (hhead : rest'.head? = some 44 ∨ rest'.head? = some 125) :
    ∀ b, rest'.head? = some b → ¬(48 ≤ b ∧ b ≤ 57) := by
  intro b hb
  rcases hhead with h | h <;> (rw [h] at hb; injection hb with hb'; omega)

/-- An algorithm tag is at most six bytes. -/
theorem algo_tag_len (a : otp.Algo) : (asciiBytes a.as_str).length ≤ 6 := by
  cases a <;> decide

/-- Parsing a rendered record object recovers it. -/
theorem parse_record (f fuel : Nat) (r : types.TotpRecord) (rest : List Nat)
    (hfuel : r.secret.length + (r.issuer.getD []).length +
      (r.username.getD []).length + 22 ≤ fuel) :
    parseJsonF (fuel + 1) (renderJsonF (f + 3) (types.recordToJson r) ++ rest) =
      some (types.recordToJson r, rest) := by
  rw [show types.recordToJson r =
    .obj ((asciiBytes "secret", .arr (r.secret.map fun b => .num (Int.ofNat b))) ::
      [(asciiBytes "algo", .str (asciiBytes r.algo.as_str)),
       (asciiBytes "digits", .num (Int.ofNat r.digits)),
       (asciiBytes "step", .num (Int.ofNat r.step)),
       (asciiBytes "issuer", match r.issuer with
         | none => .null
         | some s => .str s),
       (asciiBytes "username", match r.username with
         | none => .null
         | some s => .str s)]) from rfl]
  refine parse_obj f
    (r.secret.length + (r.issuer.getD []).length + (r.username.getD []).length + 9)
    _ _ _ fuel rest ?_ ?_ (by simp only [List.length_cons, List.length_nil]; omega)
  · intro kv hkv fuel' rest' hW hhead
    simp only [List.mem_cons, List.not_mem_nil, or_false] at hkv
    rcases hkv with rfl | rfl | rfl | rfl | rfl | rfl
    · exact parse_numArray fuel' f r.secret rest' (by omega)
    · exact parse_str fuel' (f + 1) (asciiBytes r.algo.as_str) rest'
        (by have := algo_tag_len r.algo; omega)
    · have hrw : renderJsonF (f + 2) (.num (Int.ofNat r.digits)) =
          natDecBytes r.digits := render_num (f + 1) r.digits
      rw [hrw]
      exact parse_natDec fuel' r.digits rest' (sep_head_not_digit rest' hhead)
    · have hrw : renderJsonF (f + 2) (.num (Int.ofNat r.step)) =
          natDecBytes r.step := render_num (f + 1) r.step
      rw [hrw]
      exact parse_natDec fuel' r.step rest' (sep_head_not_digit rest' hhead)
    · cases hi : r.issuer with
      | none => exact parse_null fuel' (f + 1) rest'
      | some s =>
        refine parse_str fuel' (f + 1) s rest' ?_
        have : (r.issuer.getD []).length = s.length := by rw [hi]; rfl
        omega
    · cases hu : r.username with
      | none => exact parse_null fuel' (f + 1) rest'
      | some s =>
        refine parse_str fuel' (f + 1) s rest' ?_
        have : (r.username.getD []).length = s.length := by rw [hu]; rfl
        omega
  · intro kv hkv
    simp only [List.mem_cons, List.not_mem_nil, or_false] at hkv
    rcases hkv with rfl | rfl | rfl | rfl | rfl | rfl <;> simp [asciiBytes]

/-- Escaping a byte yields at least one byte. -/
theorem escByte_ge (b : Nat) : 1 ≤ (escapeByte b).length := by
  unfold escapeByte
  split_ifs <;> simp

/-- Escaping never shortens a string. -/
theorem escFlat_ge (s : List Nat) : s.length ≤ ((s.map escapeByte).flatten).length := by
  induction s with
  | nil => simp
  | cons b bs ih =>
    simp only [List.map_cons, List.flatten_cons, List.length_append, List.length_cons]
    have := escByte_ge b
    omega

/-- A rendered number is at least one byte. -/
theorem natDec_ge (n : Nat) : 1 ≤ (natDecBytes n).length :=
  List.length_pos.mpr (natDecBytes_ne_nil n)

/-- A member of a comma-prefixed flattening contributes its length. -/
theorem flat44_mem_ge (xs : List (List Nat)) (y : List Nat) (hy : y ∈ xs) :
    y.length ≤ ((xs.map fun z => 44 :: z).flatten).length := by
  induction xs with
  | nil => cases hy
  | cons z zs ih =>
    simp only [List.map_cons, List.flatten_cons, List.length_append, List.length_cons]
    rcases List.mem_cons.mp hy with rfl | hy2
    · omega
    · have := ih hy2
      omega

/-- A comma-joined item contributes its length. -/
theorem commaSep_mem_ge (ms : List (List Nat)) (x : List Nat) (hx : x ∈ ms) :
    x.length ≤ (commaSep ms).length := by
  cases ms with
  | nil => cases hx
  | cons m mss =>
    rw [commaSep_cons]
    simp only [List.length_append]
    rcases List.mem_cons.mp hx with rfl | hx2
    · omega
    · have := flat44_mem_ge mss x hx2
      omega

/-- Items of at least 33 bytes make the comma-joined rendering at least
34 bytes per item (minus the missing final comma). -/
theorem flat44_card33 (xs : List (List Nat)) (h : ∀ z ∈ xs, 33 ≤ z.length) :
    34 * xs.length ≤ ((xs.map fun z => 44 :: z).flatten).length := by
  induction xs with
  | nil => simp
  | cons z zs ih =>
    simp only [List.map_cons, List.flatten_cons, List.length_append, List.length_cons]
    have h1 := h z (by simp)
    have h2 := ih fun w hw => h w (by simp [hw])
    omega

/-- Comma-joined items of at least 33 bytes give at least 34 bytes each. -/
theorem commaSep_card33 (ms : List (List Nat)) (h : ∀ x ∈ ms, 33 ≤ x.length) :
    34 * ms.length ≤ (commaSep ms).length + 1 := by
  cases ms with
  | nil => simp
  | cons m mss =>
    rw [commaSep_cons]
    simp only [List.length_append, List.length_cons]
    have h1 := h m (by simp)
    have h2 := flat44_card33 mss fun w hw => h w (by simp [hw])
    omega

/-- A rendered secret array is longer than the secret. -/
theorem arrRender_ge (f : Nat) (ns : List Nat) :
    ns.length + 1 ≤ (renderJsonF (f + 2) (.arr (ns.map fun m => .num (Int.ofNat m)))).length := by
  cases ns with
  | nil =>
    rw [show renderJsonF (f + 2) (.arr (([] : List Nat).map fun m => Json.num (Int.ofNat m))) =
      [91, 93] from rfl]
    simp
  | cons n ns =>
    rw [render_numArr]
    simp only [List.length_cons, List.length_append]
    have h1 := natDec_ge n
    have h2 : 2 * ns.length ≤ ((ns.map fun m => 44 :: natDecBytes m).flatten).length := by
      induction ns with
      | nil => simp
      | cons m ms ih =>
        simp only [List.map_cons, List.flatten_cons, List.length_append,
          List.length_cons, List.length_nil]
        have := natDec_ge m
        omega
    simp only [List.length_cons, List.length_nil]
    omega

/-- A rendered string value is longer than the string plus its quotes. -/
theorem strRender_ge (f : Nat) (s : List Nat) :
    s.length + 2 ≤ (renderJsonF (f + 1) (.str s)).length := by
  rw [render_str]
  simp only [List.length_append, List.length_cons, List.length_nil]
  have := escFlat_ge s
  omega

/-- A rendered optional string value is longer than the carried string plus
two. -/
theorem optRender_ge (f : Nat) (o : Option (List Nat)) :
    (o.getD []).length + 2 ≤
      (renderJsonF (f + 1) (match o with
        | none => Json.null
        | some s => Json.str s)).length := by
  cases o with
  | none =>
    rw [render_null]
    simp
  | some s =>
    have := strRender_ge f s
    simpa using this

/-- A rendered record is at least 33 bytes and dominates its variable-length
fields. -/
theorem recordRender_ge (f : Nat) (r : types.TotpRecord) :
    33 ≤ (renderJsonF (f + 3) (types.recordToJson r)).length ∧
    r.secret.length + (r.issuer.getD []).length + (r.username.getD []).length ≤
      (renderJsonF (f + 3) (types.recordToJson r)).length := by
  obtain ⟨sec, al, dg, st, iss, usr⟩ := r
  simp only [types.recordToJson]
  have hcs : ∀ m1 m2 m3 m4 m5 m6 : List Nat,
      commaSep [m1, m2, m3, m4, m5, m6] =
        m1 ++ [44] ++ (m2 ++ [44] ++ (m3 ++ [44] ++ (m4 ++ [44] ++ (m5 ++ [44] ++ m6)))) :=
    fun _ _ _ _ _ _ => by simp [commaSep]
  have e1 : ((asciiBytes "secret").map escapeByte).flatten.length = 6 := by decide
  have e2 : ((asciiBytes "algo").map escapeByte).flatten.length = 4 := by decide
  have e3 : ((asciiBytes "digits").map escapeByte).flatten.length = 6 := by decide
  have e4 : ((asciiBytes "step").map escapeByte).flatten.length = 4 := by decide
  have e5 : ((asciiBytes "issuer").map escapeByte).flatten.length = 6 := by decide
  have e6 : ((asciiBytes "username").map escapeByte).flatten.length = 8 := by decide
  have hsec : sec.length + 1 ≤
      (renderJsonF (f + 2) (.arr (sec.map fun m => .num (Int.ofNat m)))).length :=
    arrRender_ge f sec
  have halgo : (asciiBytes al.as_str).length + 2 ≤
      (renderJsonF (f + 2) (.str (asciiBytes al.as_str))).length :=
    strRender_ge (f + 1) _
  have hdg : renderJsonF (f + 2) (.num (Int.ofNat dg)) = natDecBytes dg :=
    render_num (f + 1) dg
  have hst : renderJsonF (f + 2) (.num (Int.ofNat st)) = natDecBytes st :=
    render_num (f + 1) st
  rcases iss with _ | si <;> rcases usr with _ | su <;>
    (rw [show f + 3 = f + 2 + 1 from rfl, render_obj (f + 2)]
     simp only [List.map_cons, List.map_nil]
     rw [hcs]
     simp only [List.length_append, List.length_cons, List.length_nil, Option.getD_none,
       Option.getD_some, List.length_nil]
     rw [hdg, hst]
     first
     | (have hv5 : (renderJsonF (f + 2) Json.null).length = 4 := rfl
        have hv6 : (renderJsonF (f + 2) Json.null).length = 4 := rfl
        have := natDec_ge dg
        have := natDec_ge st
        constructor <;> omega)
     | (have hv5 : (renderJsonF (f + 2) Json.null).length = 4 := rfl
        have hv6 : su.length + 2 ≤ (renderJsonF (f + 2) (.str su)).length :=
          strRender_ge (f + 1) su
        have := natDec_ge dg
        have := natDec_ge st
        constructor <;> omega)
     | (have hv5 : si.length + 2 ≤ (renderJsonF (f + 2) (.str si)).length :=
          strRender_ge (f + 1) si
        have hv6 : (renderJsonF (f + 2) Json.null).length = 4 := rfl
        have := natDec_ge dg
        have := natDec_ge st
        constructor <;> omega)
     | (have hv5 : si.length + 2 ≤ (renderJsonF (f + 2) (.str si)).length :=
          strRender_ge (f + 1) si
        have hv6 : su.length + 2 ≤ (renderJsonF (f + 2) (.str su)).length :=
          strRender_ge (f + 1) su
        have := natDec_ge dg
        have := natDec_ge st
        constructor <;> omega))

/-- The serialized mapping laid out as brace, comma-joined members, brace. -/
theorem dictRender_eq (d : types.TotpRecordDict) :
    types.serde_json_to_vec d =
      [123] ++ commaSep (d.map fun kv =>
        [34] ++ (kv.1.map escapeByte).flatten ++ [34, 58] ++
          renderJsonF 3 (types.recordToJson kv.2)) ++ [125] := by
  simp only [types.serde_json_to_vec, types.dictToJson]
  rw [show (4 : Nat) = 3 + 1 from rfl, render_obj 3, List.map_map]
  rfl

/-- Every name and every variable-length field of a stored record fits inside
the serialized mapping. -/
theorem dictField_le (d : types.TotpRecordDict) (kv : List Nat × types.TotpRecord)
    (h : kv ∈ d) :
    kv.1.length ≤ (types.serde_json_to_vec d).length ∧
    kv.2.secret.length + (kv.2.issuer.getD []).length + (kv.2.username.getD []).length ≤
      (types.serde_json_to_vec d).length := by
  rw [dictRender_eq]
  have hm : ([34] ++ (kv.1.map escapeByte).flatten ++ [34, 58] ++
      renderJsonF 3 (types.recordToJson kv.2)) ∈ d.map (fun kv =>
        [34] ++ (kv.1.map escapeByte).flatten ++ [34, 58] ++
          renderJsonF 3 (types.recordToJson kv.2)) :=
    List.mem_map.mpr ⟨kv, h, rfl⟩
  have h1 := commaSep_mem_ge _ _ hm
  have h2 := escFlat_ge kv.1
  have h3 : 33 ≤ (renderJsonF 3 (types.recordToJson kv.2)).length ∧
      kv.2.secret.length + (kv.2.issuer.getD []).length + (kv.2.username.getD []).length ≤
        (renderJsonF 3 (types.recordToJson kv.2)).length := recordRender_ge 0 kv.2
  simp only [List.length_append, List.length_cons, List.length_nil] at h1 ⊢
  omega

/-- The serialized mapping is at least 34 bytes per record. -/
theorem dictLen_ge (d : types.TotpRecordDict) :
    34 * d.length + 1 ≤ (types.serde_json_to_vec d).length := by
  have h33 : ∀ x ∈ (d.map fun kv =>
      [34] ++ (kv.1.map escapeByte).flatten ++ [34, 58] ++
        renderJsonF 3 (types.recordToJson kv.2)), 33 ≤ x.length := by
    intro x hx
    obtain ⟨kv, hkv, rfl⟩ := List.mem_map.mp hx
    have h3 : 33 ≤ (renderJsonF 3 (types.recordToJson kv.2)).length :=
      (recordRender_ge 0 kv.2).1
    simp only [List.length_append, List.length_cons, List.length_nil]
    omega
  have h := commaSep_card33 _ h33
  rw [dictRender_eq]
  simp only [List.length_append, List.length_map, List.length_cons, List.length_nil] at h ⊢
  omega

/-- Parsing the serialized mapping recovers its value tree exactly. -/
theorem parse_dict (d : types.TotpRecordDict) :
    parseJson (types.serde_json_to_vec d) = some (types.dictToJson d, []) := by
  cases d with
  | nil => rfl
  | cons kv0 tl =>
    have hv : ∀ kv ∈ ((kv0.1, types.recordToJson kv0.2) ::
        tl.map fun kv => (kv.1, types.recordToJson kv.2)),
        ∀ (g : Nat) (rest' : List Nat),
        (types.serde_json_to_vec (kv0 :: tl)).length + 22 ≤ g →
        (rest'.head? = some 44 ∨ rest'.head? = some 125) →
        parseJsonF (g + 1) (renderJsonF (1 + 2) kv.2 ++ rest') = some (kv.2, rest') := by
      intro kv hkv g rest' hW _
      have hrec : ∃ r, r ∈ (kv0 :: tl) ∧ kv.2 = types.recordToJson r.2 := by
        rcases List.mem_cons.mp hkv with rfl | hmem
        · exact ⟨kv0, by simp, rfl⟩
        · obtain ⟨kv2, hkv2, rfl⟩ := List.mem_map.mp hmem
          exact ⟨kv2, by simp [hkv2], rfl⟩
      obtain ⟨r, hr, hkv2⟩ := hrec
      rw [hkv2]
      have hb := (dictField_le (kv0 :: tl) r hr).2
      exact parse_record 0 g r.2 rest' (by omega)
    have hk : ∀ kv ∈ ((kv0.1, types.recordToJson kv0.2) ::
        tl.map fun kv => (kv.1, types.recordToJson kv.2)),
        kv.1.length ≤ (types.serde_json_to_vec (kv0 :: tl)).length + 22 := by
      intro kv hkv
      have hname : ∃ r, r ∈ (kv0 :: tl) ∧ kv.1 = r.1 := by
        rcases List.mem_cons.mp hkv with rfl | hmem
        · exact ⟨kv0, by simp, rfl⟩
        · obtain ⟨kv2, hkv2, rfl⟩ := List.mem_map.mp hmem
          exact ⟨kv2, by simp [hkv2], rfl⟩
      obtain ⟨r, hr, hn⟩ := hname
      rw [hn]
      have := (dictField_le (kv0 :: tl) r hr).1
      omega
    have hfu : 2 * (tl.map fun kv => (kv.1, types.recordToJson kv.2)).length +
        ((types.serde_json_to_vec (kv0 :: tl)).length + 22) + 3 ≤
        2 * (types.serde_json_to_vec (kv0 :: tl)).length + 1 := by
      have hge := dictLen_ge (kv0 :: tl)
      simp only [List.length_map, List.length_cons] at hge ⊢
      omega
    have key := parse_obj 1 ((types.serde_json_to_vec (kv0 :: tl)).length + 22) kv0.1
      (types.recordToJson kv0.2) (tl.map fun kv => (kv.1, types.recordToJson kv.2))
      (2 * (types.serde_json_to_vec (kv0 :: tl)).length + 1) [] hv hk hfu
    rw [List.append_nil] at key
    exact key

/-- Deserializing a serialized secret recovers the bytes. -/
theorem parseSecret_go (bs : List Nat) (h : ∀ b ∈ bs, b < 256) :
    types.parseSecretVal.go (bs.map fun b => Json.num (Int.ofNat b)) = .ok bs := by
  induction bs with
  | nil => rfl
  | cons b bs ih =>
    have hb : types.parseByteVal (Json.num (Int.ofNat b)) = .ok b := by
      have hb2 : b < 256 := h b (by simp)
      simp only [types.parseByteVal]
      rw [if_pos ⟨Int.ofNat_nonneg b, Int.ofNat_le.mpr (show b ≤ 255 by omega)⟩]
      simp
    have hgo : types.parseSecretVal.go
        ((Json.num (Int.ofNat b)) :: bs.map fun b => Json.num (Int.ofNat b)) =
        match types.parseByteVal (Json.num (Int.ofNat b)),
            types.parseSecretVal.go (bs.map fun b => Json.num (Int.ofNat b)) with
        | .ok b2, .ok bs2 => .ok (b2 :: bs2)
        | .error e, _ => .error e
        | _, .error e => .error e := rfl
    simp only [List.map_cons, hgo, hb, ih fun x hx => h x (by simp [hx])]

/-- Reading a `secret` member fills the secret slot. -/
theorem readField_secret (st : types.RecFields) (v : Json) (bs : List Nat)
    (hst : st.secret = none) (hv : types.parseSecretVal v = .ok bs) :
    types.readField st (asciiBytes "secret", v) = .ok { st with secret := some bs } := by
  simp only [types.readField, hst, hv, if_true]

/-- Reading an `algo` member fills the algo slot. -/
theorem readField_algo (st : types.RecFields) (v : Json) (a : otp.Algo)
    (hst : st.algo = none) (hv : types.parseAlgoVal v = .ok a) :
    types.readField st (asciiBytes "algo", v) = .ok { st with algo := some a } := by
  simp only [types.readField]
  rw [if_neg (by decide), if_true]
  simp only [hst, hv]

/-- Reading a `digits` member fills the digits slot. -/
theorem readField_digits (st : types.RecFields) (v : Json) (n : Nat)
    (hst : st.digits = none) (hv : types.parseU32Val v = .ok n) :
    types.readField st (asciiBytes "digits", v) = .ok { st with digits := some n } := by
  simp only [types.readField]
  rw [if_neg (by decide), if_neg (by decide), if_true]
  simp only [hst, hv]

/-- Reading a `step` member fills the step slot. -/
theorem readField_step (st : types.RecFields) (v : Json) (n : Nat)
    (hst : st.step = none) (hv : types.parseU64Val v = .ok n) :
    types.readField st (asciiBytes "step", v) = .ok { st with step := some n } := by
  simp only [types.readField]
  rw [if_neg (by decide), if_neg (by decide), if_neg (by decide), if_true]
  simp only [hst, hv]

/-- Reading an `issuer` member fills the issuer slot. -/
theorem readField_issuer (st : types.RecFields) (v : Json) (o : Option (List Nat))
    (hst : st.issuer = none) (hv : types.parseOptStrVal v = .ok o) :
    types.readField st (asciiBytes "issuer", v) = .ok { st with issuer := some o } := by
  simp only [types.readField]
  rw [if_neg (by decide), if_neg (by decide), if_neg (by decide), if_neg (by decide),
    if_true]
  simp only [hst, hv]

/-- Reading a `username` member fills the username slot. -/
theorem readField_username (st : types.RecFields) (v : Json) (o : Option (List Nat))
    (hst : st.username = none) (hv : types.parseOptStrVal v = .ok o) :
    types.readField st (asciiBytes "username", v) = .ok { st with username := some o } := by
  simp only [types.readField]
  rw [if_neg (by decide), if_neg (by decide), if_neg (by decide), if_neg (by decide),
    if_neg (by decide), if_true]
  simp only [hst, hv]

/-- One successful serde field step. -/
theorem readFields_cons_ok (st st2 : types.RecFields) (kv : List Nat × Json)
    (rest : List (List Nat × Json)) (h : types.readField st kv = .ok st2) :
    types.readFields st (kv :: rest) = types.readFields st2 rest := by
  simp only [types.readFields, h]

/-- Deserializing a serialized record recovers it, for records within the
machine ranges. -/
theorem fromJson_record (r : types.TotpRecord) (hwf : r.wf) :
    types.fromJsonTotpRecord (types.recordToJson r) = .ok r := by
  obtain ⟨sec, al, dg, stp, iss, usr⟩ := r
  simp only [types.TotpRecord.wf] at hwf
  obtain ⟨hs, hd, ht⟩ := hwf
  have hsec : types.parseSecretVal (Json.arr (sec.map fun b => Json.num (Int.ofNat b))) =
      .ok sec := parseSecret_go sec hs
  have halgo : types.parseAlgoVal (Json.str (asciiBytes al.as_str)) = .ok al := by
    cases al <;> rfl
  have hdg2 : types.parseU32Val (Json.num (Int.ofNat dg)) = .ok dg := by
    simp only [types.parseU32Val]
    rw [if_pos ⟨Int.ofNat_nonneg dg, Int.ofNat_lt.mpr hd⟩]
    simp
  have hstp : types.parseU64Val (Json.num (Int.ofNat stp)) = .ok stp := by
    simp only [types.parseU64Val]
    rw [if_pos ⟨Int.ofNat_nonneg stp, Int.ofNat_lt.mpr ht⟩]
    simp
  have e1 : types.readField types.RecFields.init
      (asciiBytes "secret", Json.arr (sec.map fun b => Json.num (Int.ofNat b))) =
      .ok ⟨some sec, none, none, none, none, none⟩ :=
    readField_secret _ _ _ rfl hsec
  have e2 : types.readField (⟨some sec, none, none, none, none, none⟩ : types.RecFields)
      (asciiBytes "algo", Json.str (asciiBytes al.as_str)) =
      .ok ⟨some sec, some al, none, none, none, none⟩ :=
    readField_algo _ _ _ rfl halgo
  have e3 : types.readField (⟨some sec, some al, none, none, none, none⟩ : types.RecFields)
      (asciiBytes "digits", Json.num (Int.ofNat dg)) =
      .ok ⟨some sec, some al, some dg, none, none, none⟩ :=
    readField_digits _ _ _ rfl hdg2
  have e4 : types.readField (⟨some sec, some al, some dg, none, none, none⟩ : types.RecFields)
      (asciiBytes "step", Json.num (Int.ofNat stp)) =
      .ok ⟨some sec, some al, some dg, some stp, none, none⟩ :=
    readField_step _ _ _ rfl hstp
  rcases iss with _ | si <;> rcases usr with _ | su
  · have e5 : types.readField
        (⟨some sec, some al, some dg, some stp, none, none⟩ : types.RecFields)
        (asciiBytes "issuer", Json.null) =
        .ok ⟨some sec, some al, some dg, some stp, some none, none⟩ :=
      readField_issuer _ _ _ rfl rfl
    have e6 : types.readField
        (⟨some sec, some al, some dg, some stp, some none, none⟩ : types.RecFields)
        (asciiBytes "username", Json.null) =
        .ok ⟨some sec, some al, some dg, some stp, some none, some none⟩ :=
      readField_username _ _ _ rfl rfl
    simp only [types.recordToJson, types.fromJsonTotpRecord]
    rw [readFields_cons_ok _ _ _ _ e1, readFields_cons_ok _ _ _ _ e2,
      readFields_cons_ok _ _ _ _ e3, readFields_cons_ok _ _ _ _ e4,
      readFields_cons_ok _ _ _ _ e5, readFields_cons_ok _ _ _ _ e6]
    rfl
  · have e5 : types.readField
        (⟨some sec, some al, some dg, some stp, none, none⟩ : types.RecFields)
        (asciiBytes "issuer", Json.null) =
        .ok ⟨some sec, some al, some dg, some stp, some none, none⟩ :=
      readField_issuer _ _ _ rfl rfl
    have e6 : types.readField
        (⟨some sec, some al, some dg, some stp, some none, none⟩ : types.RecFields)
        (asciiBytes "username", Json.str su) =
        .ok ⟨some sec, some al, some dg, some stp, some none, some (some su)⟩ :=
      readField_username _ _ _ rfl rfl
    simp only [types.recordToJson, types.fromJsonTotpRecord]
    rw [readFields_cons_ok _ _ _ _ e1, readFields_cons_ok _ _ _ _ e2,
      readFields_cons_ok _ _ _ _ e3, readFields_cons_ok _ _ _ _ e4,
      readFields_cons_ok _ _ _ _ e5, readFields_cons_ok _ _ _ _ e6]
    rfl
  · have e5 : types.readField
        (⟨some sec, some al, some dg, some stp, none, none⟩ : types.RecFields)
        (asciiBytes "issuer", Json.str si) =
        .ok ⟨some sec, some al, some dg, some stp, some (some si), none⟩ :=
      readField_issuer _ _ _ rfl rfl
    have e6 : types.readField
        (⟨some sec, some al, some dg, some stp, some (some si), none⟩ : types.RecFields)
        (asciiBytes "username", Json.null) =
        .ok ⟨some sec, some al, some dg, some stp, some (some si), some none⟩ :=
      readField_username _ _ _ rfl rfl
    simp only [types.recordToJson, types.fromJsonTotpRecord]
    rw [readFields_cons_ok _ _ _ _ e1, readFields_cons_ok _ _ _ _ e2,
      readFields_cons_ok _ _ _ _ e3, readFields_cons_ok _ _ _ _ e4,
      readFields_cons_ok _ _ _ _ e5, readFields_cons_ok _ _ _ _ e6]
    rfl
  · have e5 : types.readField
        (⟨some sec, some al, some dg, some stp, none, none⟩ : types.RecFields)
        (asciiBytes "issuer", Json.str si) =
        .ok ⟨some sec, some al, some dg, some stp, some (some si), none⟩ :=
      readField_issuer _ _ _ rfl rfl
    have e6 : types.readField
        (⟨some sec, some al, some dg, some stp, some (some si), none⟩ : types.RecFields)
        (asciiBytes "username", Json.str su) =
        .ok ⟨some sec, some al, some dg, some stp, some (some si), some (some su)⟩ :=
      readField_username _ _ _ rfl rfl
    simp only [types.recordToJson, types.fromJsonTotpRecord]
    rw [readFields_cons_ok _ _ _ _ e1, readFields_cons_ok _ _ _ _ e2,
      readFields_cons_ok _ _ _ _ e3, readFields_cons_ok _ _ _ _ e4,
      readFields_cons_ok _ _ _ _ e5, readFields_cons_ok _ _ _ _ e6]
    rfl

/-- Deserializing the serialized mapping recovers it, for mappings within the
machine ranges. -/
theorem fromJson_dict (d : types.TotpRecordDict) (hwf : types.dictWf d) :
    types.fromJsonDict (types.dictToJson d) = .ok d := by
  induction d with
  | nil => rfl
  | cons kv tl ih =>
    have h1 : types.fromJsonTotpRecord (types.recordToJson kv.2) = .ok kv.2 :=
      fromJson_record kv.2 (hwf kv (by simp))
    have h2 : types.fromJsonDictFields (tl.map fun kv => (kv.1, types.recordToJson kv.2)) =
        .ok tl := by
      have h3 := ih fun kv2 hk2 => hwf kv2 (by simp [hk2])
      simpa [types.fromJsonDict, types.dictToJson] using h3
    simp [types.fromJsonDict, types.dictToJson, types.fromJsonDictFields, h1, h2]

/-- The JSON layer round-trips every record mapping within the machine
ranges. -/
theorem serde_roundtrip (records : types.TotpRecordDict) (hwf : types.dictWf records) :
    types.serde_json_from_slice (types.serde_json_to_vec records) = .ok records := by
  simp only [types.serde_json_from_slice, parse_dict]
  exact fromJson_dict records hwf

/-- Splitting the nonce back off an encrypted blob. -/
theorem readNonce_append (nonce rest : List Nat) (hn : nonce.length = 24) :
    types.readNonce (nonce ++ rest) = .ok (nonce, rest) := by
  simp only [types.readNonce, chacha.NONCE_LEN]
  rw [if_neg (by simp [hn])]
  rw [List.take_left' hn, List.drop_left' hn]

/-- The file-level round trip, conditional on the JSON layer round-tripping
the mapping. -/
theorem totpFile_roundtrip (key nonce : List Nat) (records : types.TotpRecordDict)
    (hk : key.length = 32) (hn : nonce.length = 24)
    (hwf : types.dictWf records) :
    types.TotpFile.encrypt key nonce records =
      .ok (nonce ++ aeadSeal key nonce (types.serde_json_to_vec records)) ∧
    types.TotpFile.decrypt key
        (nonce ++ aeadSeal key nonce (types.serde_json_to_vec records)) =
      some (.ok records) := by
  constructor
  · simp only [types.TotpFile.encrypt, encrypt_data_seal key nonce _ hk]
  · simp only [types.TotpFile.decrypt, chacha.NONCE_LEN]
    rw [if_neg (by simp [hn])]
    simp only [readNonce_append _ _ hn, decrypt_data_seal _ _ _ hk,
      serde_roundtrip records hwf]

/-- C1: for every 32-byte key, 24-byte nonce and plaintext (the empty one
included), `decrypt_data` inverts `encrypt_data`; consequently
`TotpFile::decrypt` recovers from `TotpFile::encrypt` every record mapping
whose records are within the ranges of their Rust field types. -/
theorem C1_roundtrip :
    (∀ key nonce p ct : List Nat, key.length = 32 → nonce.length = 24 →
      chacha.encrypt_data key nonce p = .ok ct →
      chacha.decrypt_data key nonce ct = .ok p) ∧
    (∀ (key nonce : List Nat) (records : types.TotpRecordDict),
      key.length = 32 → nonce.length = 24 → types.dictWf records →
      ∃ blob, types.TotpFile.encrypt key nonce records = .ok blob ∧
        types.TotpFile.decrypt key blob = some (.ok records)) := by
  constructor
  · intro key nonce p ct hk _ hct
    rw [encrypt_data_seal key nonce p hk] at hct
    injection hct with hct'
    rw [← hct']
    exact decrypt_data_seal key nonce p hk
  · intro key nonce records hk hn hwf
    exact ⟨_, totpFile_roundtrip key nonce records hk hn hwf⟩

set_option maxRecDepth 100000 in
/-- C1 witness: the round trip at a concrete key, nonce, the empty plaintext
and a concrete one-record mapping. -/
theorem C1_roundtrip_witness :
    chacha.decrypt_data (List.replicate 32 0) (List.range 24)
      (aeadSeal (List.replicate 32 0) (List.range 24) []) = .ok [] ∧
    ∃ blob,
      types.TotpFile.encrypt (List.replicate 32 0) (List.range 24)
        [(asciiBytes "a", ⟨[1], otp.Algo.SHA1, 6, 30, none, none⟩)] = .ok blob ∧
      types.TotpFile.decrypt (List.replicate 32 0) blob =
        some (.ok [(asciiBytes "a", ⟨[1], otp.Algo.SHA1, 6, 30, none, none⟩)]) :=
  ⟨C1_roundtrip.1 (List.replicate 32 0) (List.range 24) [] _ (by decide) (by decide)
      (encrypt_data_seal _ _ _ (by decide)),
   C1_roundtrip.2 (List.replicate 32 0) (List.range 24) _ (by decide) (by decide)
      (by simp only [types.dictWf, types.TotpRecord.wf]; decide)⟩

set_option maxRecDepth 100000 in
/-- C2 counterexample: at counter 0 the 8-digit SHA-1 code over the RFC 4226
secret is "84755224" (truncated value 1284755224), not "94287082" — the
latter is the counter-1 (RFC 6238, time 59) vector. -/
theorem C2_counterexample :
    otp.generate_integer_string otp.Algo.SHA1 rfc4226Secret 8 (u64_to_be_bytes 0) ≠
      some "94287082" := by decide

set_option maxRecDepth 100000 in
/-- C2 (amended): at counter 1 — the window RFC 6238 derives from time 59
with step 30 — the 8-digit code is "94287082", and the 6-digit code on the
same inputs is its last six digits with padding preserved. -/
theorem C2_vector :
    otp.generate_integer_string otp.Algo.SHA1 rfc4226Secret 8 (u64_to_be_bytes 1) =
      some "94287082" ∧
    otp.generate_integer_string otp.Algo.SHA1 rfc4226Secret 6 (u64_to_be_bytes 1) =
      some (otp.pad_string (Nat.repr (94287082 % 10 ^ 6)) 6) :=
  ⟨by decide, by decide⟩

set_option maxRecDepth 100000 in
/-- C3 counterexample: at digits = 64 the divisor `10u64.pow(64)` wraps to 0
and the remainder panics, so the generator does not return the spec's
truncation result. -/
theorem C3_counterexample :
    otp.generate_integer_string otp.Algo.SHA1 rfc4226Secret 64 (u64_to_be_bytes 0) ≠
      some (spec_truncate (otp.hmacOf otp.Algo.SHA1 rfc4226Secret (u64_to_be_bytes 0))
        64) := by decide

/-- C3 (amended): for digit widths below 64 the generator performs dynamic
truncation exactly as the spec's formula states, padding and never
truncating. -/
theorem C3_truncation (algo : otp.Algo) (s data : List Nat) (digits : Nat)
    (hd : digits ≤ 63) :
    otp.generate_integer_string algo s digits data =
      some (spec_truncate (otp.hmacOf algo s data) digits) :=
  gis_spec algo s data digits hd

/-- C3 witness: the truncation equality at a concrete input. -/
theorem C3_truncation_witness :
    6 ≤ 63 ∧
    otp.generate_integer_string otp.Algo.SHA1 [] 6 [] =
      some (spec_truncate (otp.hmacOf otp.Algo.SHA1 [] []) 6) :=
  ⟨by decide, C3_truncation otp.Algo.SHA1 [] [] 6 (by decide)⟩

/-- C4: a blob shorter than the 24-byte nonce makes `TotpFile::decrypt` panic
(`Vec::with_capacity(data.len() - NONCE_LEN)` underflows) instead of
returning the "invalid file format" error, which is unreachable for such
inputs. -/
theorem C4_short_blob_panic :
    types.TotpFile.decrypt (List.replicate 32 0) (List.replicate 10 0) = none := by
  rfl

set_option maxRecDepth 100000 in
/-- C5 counterexample: at digits = 64 the MAC step succeeds and yet code
generation fails (the wrapped `10u64.pow(64)` makes the remainder panic), so
generation has a failure path besides a MAC failure. -/
theorem C5_counterexample :
    (otp.one_off otp.Algo.SHA1 [] (u64_to_be_bytes 0)).isOk = true ∧
    otp.generate_integer_string otp.Algo.SHA1 [] 64 (u64_to_be_bytes 0) = none :=
  ⟨rfl, by decide⟩

/-- C5 (amended): for digit widths below 64 the MAC step always succeeds —
HMAC accepts every key length — and code generation always returns a string;
within that range there is no failure path at all. -/
theorem C5_no_failure (algo : otp.Algo) (s data : List Nat) (digits : Nat)
    (hd : digits ≤ 63) :
    otp.one_off algo s data = .ok (otp.hmacOf algo s data) ∧
    ∃ out, otp.generate_integer_string algo s digits data = some out :=
  ⟨one_off_eq algo s data, _, gis_spec algo s data digits hd⟩

/-- C5 witness: total generation at a concrete input. -/
theorem C5_no_failure_witness :
    8 ≤ 63 ∧
    (otp.one_off otp.Algo.SHA256 [1] [2] = .ok (otp.hmacOf otp.Algo.SHA256 [1] [2]) ∧
      ∃ out, otp.generate_integer_string otp.Algo.SHA256 [1] 8 [2] = some out) :=
  ⟨by decide, C5_no_failure otp.Algo.SHA256 [1] [2] 8 (by decide)⟩

/-- C7: every `Algo` round-trips through its string form, and every other
string is rejected with an error rather than a default. -/
theorem C7_algo_roundtrip :
    (∀ a : otp.Algo, otp.Algo.try_from_str a.as_str = .ok a) ∧
    (∀ s : String, s ≠ "SHA1" → s ≠ "SHA256" → s ≠ "SHA512" →
      otp.Algo.try_from_str s = .error ()) := by
  constructor
  · intro a
    cases a <;> rfl
  · intro s h1 h2 h3
    simp only [otp.Algo.try_from_str, if_neg h1, if_neg h2, if_neg h3]

/-- C7 witness: a concrete unknown string is rejected. -/
theorem C7_algo_roundtrip_witness :
    ("MD5" ≠ "SHA1" ∧ "MD5" ≠ "SHA256" ∧ "MD5" ≠ "SHA512") ∧
    otp.Algo.try_from_str "MD5" = .error () :=
  ⟨⟨by decide, by decide, by decide⟩,
   C7_algo_roundtrip.2 "MD5" (by decide) (by decide) (by decide)⟩

/-- C8: two times in the same `floor(now/step)` window give the identical
TOTP code (the counter bytes depend only on the window index). -/
theorem C8_window (algo : otp.Algo) (s : List Nat) (digits step now1 now2 : Nat)
    (hstep : 0 < step) (hwin : now1 / step = now2 / step) :
    otp._totp algo s digits step now1 = otp._totp algo s digits step now2 := by
  simp only [otp._totp, otp.rust_div, if_neg (by omega : ¬step = 0), hwin]

/-- C8 witness: seconds 29 and 15 share the step-30 window. -/
theorem C8_window_witness :
    (0 < 30 ∧ 29 / 30 = 15 / 30) ∧
    otp._totp otp.Algo.SHA1 [] 6 30 29 = otp._totp otp.Algo.SHA1 [] 6 30 15 :=
  ⟨⟨by decide, by decide⟩,
   C8_window otp.Algo.SHA1 [] 6 30 29 15 (by decide) (by decide)⟩

/-- C9: a record object with `step = 0` deserializes successfully, and code
generation for it divides by the step unguarded, panicking for every `now`
instead of returning an error. -/
theorem C9_zero_step :
    ∃ r : types.TotpRecord,
      types.fromJsonTotpRecord (Json.obj [(asciiBytes "secret", Json.arr []),
        (asciiBytes "step", Json.num 0)]) = .ok r ∧
      r.step = 0 ∧ ∀ now : Nat, types.print_totp_code_code r now = none := by
  refine ⟨⟨[], otp.Algo.SHA1, 6, 0, none, none⟩, by decide, rfl, fun now => rfl⟩

/-- C10: every digest is at least 20 bytes and the truncation offset (the low
nibble of the last byte) keeps all four reads in bounds, so the truncation
step cannot index out of range. -/
theorem C10_truncation_in_bounds (algo : otp.Algo) (s data : List Nat) :
    20 ≤ (otp.hmacOf algo s data).length ∧
    ((otp.hmacOf algo s data).getD ((otp.hmacOf algo s data).length - 1) 0 &&& 0xf)
        + 3 < (otp.hmacOf algo s data).length := by
  have h := hmacOf_length_ge algo s data
  have hoff : (otp.hmacOf algo s data).getD ((otp.hmacOf algo s data).length - 1) 0
      &&& 0xf ≤ 15 := Nat.and_le_right
  exact ⟨h, by omega⟩

/-- Consuming one object member never touches the slots of other fields. -/
theorem readField_preserve (st : types.RecFields) (kv : List Nat × Json)
    (st' : types.RecFields) (h : types.readField st kv = .ok st') :
    (kv.1 ≠ asciiBytes "secret" → st'.secret = st.secret) ∧
    (kv.1 ≠ asciiBytes "algo" → st'.algo = st.algo) ∧
    (kv.1 ≠ asciiBytes "digits" → st'.digits = st.digits) ∧
    (kv.1 ≠ asciiBytes "step" → st'.step = st.step) := by
  unfold types.readField at h
  split_ifs at h
  all_goals (repeat' split at h)
  all_goals cases h
  all_goals refine ⟨fun hne => ?_, fun hne => ?_, fun hne => ?_, fun hne => ?_⟩
  all_goals
    first
    | rfl
    | exact absurd (by assumption) hne

/-- Absence of a member in a cons cell splits into head and tail absence. -/
theorem hasField_cons (kv : List Nat × Json) (rest : List (List Nat × Json))
    (name : String) :
    hasField (kv :: rest) name = false ↔
      kv.1 ≠ asciiBytes name ∧ hasField rest name = false := by
  simp [hasField]

/-- Folding the members never touches the slot of an absent field. -/
theorem readFields_preserve (fields : List (List Nat × Json)) :
    ∀ st st', types.readFields st fields = .ok st' →
    (hasField fields "secret" = false → st'.secret = st.secret) ∧
    (hasField fields "algo" = false → st'.algo = st.algo) ∧
    (hasField fields "digits" = false → st'.digits = st.digits) ∧
    (hasField fields "step" = false → st'.step = st.step) := by
  induction fields with
  | nil =>
    intro st st' h
    simp only [types.readFields] at h
    injection h with h'
    subst h'
    exact ⟨fun _ => rfl, fun _ => rfl, fun _ => rfl, fun _ => rfl⟩
  | cons kv rest ih =>
    intro st st' h
    simp only [types.readFields] at h
    cases hrf : types.readField st kv with
    | error e => rw [hrf] at h; simp at h
    | ok st2 =>
      rw [hrf] at h
      have hp := readField_preserve st kv st2 hrf
      have hr := ih st2 st' h
      refine ⟨fun hf => ?_, fun hf => ?_, fun hf => ?_, fun hf => ?_⟩
      · obtain ⟨hne, hrest⟩ := (hasField_cons kv rest _).mp hf
        rw [hr.1 hrest, hp.1 hne]
      · obtain ⟨hne, hrest⟩ := (hasField_cons kv rest _).mp hf
        rw [hr.2.1 hrest, hp.2.1 hne]
      · obtain ⟨hne, hrest⟩ := (hasField_cons kv rest _).mp hf
        rw [hr.2.2.1 hrest, hp.2.2.1 hne]
      · obtain ⟨hne, hrest⟩ := (hasField_cons kv rest _).mp hf
        rw [hr.2.2.2 hrest, hp.2.2.2 hne]

/-- C6: a record object that omits `algo`, `digits` or `step` deserializes to
the defaults SHA1, 6 and 30; one that omits `secret` fails to deserialize. -/
theorem C6_defaults (fields : List (List Nat × Json)) :
    (∀ r : types.TotpRecord, types.fromJsonTotpRecord (Json.obj fields) = .ok r →
      (hasField fields "algo" = false → r.algo = otp.Algo.SHA1) ∧
      (hasField fields "digits" = false → r.digits = 6) ∧
      (hasField fields "step" = false → r.step = 30)) ∧
    (hasField fields "secret" = false →
      ∀ r : types.TotpRecord, types.fromJsonTotpRecord (Json.obj fields) ≠ .ok r) := by
  constructor
  · intro r hr
    simp only [types.fromJsonTotpRecord] at hr
    cases hrf : types.readFields types.RecFields.init fields with
    | error e => simp [hrf] at hr
    | ok st =>
      simp only [hrf] at hr
      have hp := readFields_preserve fields _ _ hrf
      cases hsec : st.secret with
      | none => simp [hsec] at hr
      | some sec =>
        simp only [hsec] at hr
        injection hr with hr'
        subst hr'
        refine ⟨fun hf => ?_, fun hf => ?_, fun hf => ?_⟩
        · have : st.algo = types.RecFields.init.algo := hp.2.1 hf
          simp [this, types.RecFields.init, types.default_algo]
        · have : st.digits = types.RecFields.init.digits := hp.2.2.1 hf
          simp [this, types.RecFields.init, types.default_digits]
        · have : st.step = types.RecFields.init.step := hp.2.2.2 hf
          simp [this, types.RecFields.init, types.default_step]
  · intro hf r hr
    simp only [types.fromJsonTotpRecord] at hr
    cases hrf : types.readFields types.RecFields.init fields with
    | error e => simp [hrf] at hr
    | ok st =>
      simp only [hrf] at hr
      have hp := readFields_preserve fields _ _ hrf
      have hsec : st.secret = none := hp.1 hf
      simp [hsec] at hr

/-- C6 witness: a one-member object carrying only `secret` parses to the
defaults, and the empty object (no `secret`) is rejected. -/
theorem C6_defaults_witness :
    (hasField [(asciiBytes "secret", Json.arr [Json.num 7])] "algo" = false ∧
      (⟨[7], otp.Algo.SHA1, 6, 30, none, none⟩ : types.TotpRecord).algo =
        otp.Algo.SHA1) ∧
    (hasField ([] : List (List Nat × Json)) "secret" = false ∧
      types.fromJsonTotpRecord (Json.obj []) ≠
        .ok ⟨[7], otp.Algo.SHA1, 6, 30, none, none⟩) :=
  ⟨⟨by decide,
    ((C6_defaults [(asciiBytes "secret", Json.arr [Json.num 7])]).1
      ⟨[7], otp.Algo.SHA1, 6, 30, none, none⟩ (by decide)).1 (by decide)⟩,
   ⟨by decide, (C6_defaults []).2 (by decide) _⟩⟩

end Totp
